import Mathlib

/-!
Verification development for the BonesOfOlPejeta analysis scripts.

The development shallowly embeds the two Python source files:

* `scripts/mni.py` — `calculate_mni`, which computes the Minimum Number of
  Individuals (MNI) per transect from a pandas DataFrame that is either in
  "raw" shape (one row per specimen, with a `Side` column) or already
  pivoted (one count column per side), applying an element-divisor
  correction table loaded from an external spreadsheet.
* `scripts/pairwise_field_season_comparison.py` —
  `compare_consecutive_seasons`, which runs Welch t-tests between adjacent
  field seasons.

Modelling conventions:

* A DataFrame cell is `Cell`: null (`na`, covering NaN/pd.NA/None), a
  string, or an integer.  Numeric values that occur in the pipeline
  (specimen counts, transect identifiers, divisors) are integers; the
  t-test statistic itself is abstracted as a function parameter and its
  values live in `ℚ`.
* A DataFrame is a `Frame`: a list of column names and a list of rows,
  each row a list of cells positionally aligned with the column list.
* `pd.to_numeric(..., errors="coerce").astype("Int64")` is modelled by
  `toNumeric`, which keeps integers, parses integer-literal strings and
  sends everything else to `na`.
* String normalisation (`.strip()`, `.lower()`) is modelled by structural
  functions over the character list of the string, so that every
  definition evaluates inside the kernel.
* pandas `groupby`/`pivot_table` sort their group keys and drop groups
  whose key contains a null; the embedding does the same, using an
  explicit total order on cells (nulls first, then integers, then
  strings lexicographically by code point).
-/

/-- A single DataFrame cell: null, a string, or an integer. -/
inductive Cell where
  | na : Cell
  | str : String → Cell
  | int : Int → Cell
deriving DecidableEq, Repr

/-- ASCII lower-casing of one character (models Python `str.lower` on the
ASCII element names used by the scripts). -/
def lowerChar (c : Char) : Char :=
  if 'A' ≤ c ∧ c ≤ 'Z' then Char.ofNat (c.toNat + 32) else c

/-- Lower-case a string character by character. -/
def lowerStr (s : String) : String := ⟨s.data.map lowerChar⟩

/-- Whitespace test used by `strip`/blank detection. -/
def isWs (c : Char) : Bool := c = ' ' ∨ c = '\t' ∨ c = '\n' ∨ c = '\r'

/-- Remove leading and trailing whitespace from a character list. -/
def trimList (l : List Char) : List Char :=
  ((l.dropWhile isWs).reverse.dropWhile isWs).reverse

/-- Remove leading and trailing whitespace from a string
(models Python `str.strip` and the `^\s*$` blank test). -/
def trimStr (s : String) : String := ⟨trimList s.data⟩

/-- Parse a list of decimal digits into a number; fails on a non-digit or
on the empty list. -/
def digitsVal : List Char → Option Nat
  | [] => none
  | [c] => if c.isDigit then some (c.toNat - '0'.toNat) else none
  | c :: cs =>
    if c.isDigit then
      match digitsVal cs with
      | some v => some ((c.toNat - '0'.toNat) * 10 ^ cs.length + v)
      | none => none
    else none

/-- Parse an optionally signed integer literal. -/
def parseIntList : List Char → Option Int
  | '-' :: cs => (digitsVal cs).map (fun v => -(v : Int))
  | '+' :: cs => (digitsVal cs).map (fun v => (v : Int))
  | cs => (digitsVal cs).map (fun v => (v : Int))

/-- Model of `pd.to_numeric(x, errors="coerce").astype("Int64")`:
integers pass through, integer-literal strings are parsed, anything else
(including already-null cells) becomes null. -/
def toNumeric : Cell → Cell
  | Cell.int n => Cell.int n
  | Cell.str s =>
    match parseIntList (trimList s.data) with
    | some n => Cell.int n
    | none => Cell.na
  | Cell.na => Cell.na

/-- Code-point lexicographic order on character lists (Python string
comparison). -/
def charsLt : List Char → List Char → Bool
  | [], [] => false
  | [], _ :: _ => true
  | _ :: _, [] => false
  | a :: as, b :: bs => if a < b then true else if b < a then false else charsLt as bs

/-- Boolean string order used when the scripts sort column names. -/
def strLe (a b : String) : Bool := !(charsLt b.data a.data)

/-- Total order on cells used to model the sorted group keys produced by
pandas `groupby`/`pivot_table`: nulls, then integers by value, then
strings by code point. -/
def cellLe : Cell → Cell → Bool
  | Cell.na, _ => true
  | _, Cell.na => false
  | Cell.int m, Cell.int n => decide (m ≤ n)
  | Cell.int _, Cell.str _ => true
  | Cell.str _, Cell.int _ => false
  | Cell.str a, Cell.str b => strLe a b

/-- Lexicographic extension of `cellLe` to group keys. -/
def keyLe : List Cell → List Cell → Bool
  | [], _ => true
  | _ :: _, [] => false
  | a :: as, b :: bs => if a = b then keyLe as bs else cellLe a b

/-- Ordered insertion for the insertion sort. -/
def insertBy {α : Type} (le : α → α → Bool) (a : α) : List α → List α
  | [] => [a]
  | b :: bs => if le a b then a :: b :: bs else b :: insertBy le a bs

/-- Insertion sort by a Boolean order; models the sorted output order of
pandas groupby keys and Python `sorted`. -/
def sortBy {α : Type} (le : α → α → Bool) : List α → List α
  | [] => []
  | a :: as => insertBy le a (sortBy le as)

/-- A DataFrame: column names plus rows of cells aligned positionally. -/
structure Frame where
  cols : List String
  rows : List (List Cell)
deriving DecidableEq, Repr

/-- Column membership test (`c in df.columns`). -/
def hasCol (fr : Frame) (c : String) : Bool := fr.cols.contains c

/-- The cell of `row` in column `c`: the value aligned with the first
occurrence of `c` in the column list, null if the column is absent. -/
def getCell : List String → List Cell → String → Cell
  | [], _, _ => Cell.na
  | _ :: _, [], _ => Cell.na
  | c0 :: cs, v :: vs, c => if c0 = c then v else getCell cs vs c

/-- Apply `f` to the cells of row positions named `c`
(a column-wise assignment such as `df[c] = df[c].map(f)`). -/
def mapColRow (c : String) (f : Cell → Cell) : List String → List Cell → List Cell
  | [], r => r
  | _ :: _, [] => []
  | c0 :: cs, v :: vs => (if c0 = c then f v else v) :: mapColRow c f cs vs

/-- All cells of column `c`, one per row (`df[c]`). -/
def colCells (fr : Frame) (c : String) : List Cell :=
  fr.rows.map (fun r => getCell fr.cols r c)

/-! ### Column names of `calculate_mni` (scripts/mni.py) -/

/-- The five key columns (`required` in the source). -/
def keyCols : List String :=
  ["TransectUID", "Taxon Label", "Pre: Age", "Pre: Sex", "What element is this?"]

/-- The alternative taxon columns probed by the reconstruction step, in
source order. -/
def altTaxonCols : List String := ["Post: Taxon Guess?", "Pre: Taxon"]

/-- The error raised by `calculate_mni` (`ValueError` in the source). -/
inductive MniError where
  | missingColumns : List String → MniError
  | noTaxonAlternatives : MniError
deriving DecidableEq, Repr

/-- Coerce the transect identifier column to nullable integers
(`df["TransectUID"] = pd.to_numeric(df["TransectUID"], errors="coerce").astype("Int64")`). -/
def coerceTuid (fr : Frame) : Frame :=
  ⟨fr.cols, fr.rows.map (mapColRow "TransectUID" toNumeric fr.cols)⟩

/-- `needs_taxon`: the taxon-label column is absent or contains a null. -/
def needsTaxon (fr : Frame) : Bool :=
  !(hasCol fr "Taxon Label") || (colCells fr "Taxon Label").contains Cell.na

/-- Append a constant column (pandas column assignment
`df["Taxon Label"] = pd.NA` places the new column last). -/
def addCol (fr : Frame) (c : String) (v : Cell) : Frame :=
  ⟨fr.cols ++ [c], fr.rows.map (fun r => r ++ [v])⟩

/-- One `fillna` step of the taxon reconstruction: fill the still-null
taxon-label entries of each row from column `c` of the same row. -/
def fillTaxonFrom (fr : Frame) (c : String) : Frame :=
  ⟨fr.cols, fr.rows.map (fun r =>
    mapColRow "Taxon Label"
      (fun v => if v = Cell.na then getCell fr.cols r c else v) fr.cols r)⟩

/-- Remove the cells of one row living in the dropped columns. -/
def dropColsRow (drop : List String) : List String → List Cell → List Cell
  | [], r => r
  | _ :: _, [] => []
  | c :: cs, v :: vs =>
    if drop.contains c then dropColsRow drop cs vs
    else v :: dropColsRow drop cs vs

/-- `df.drop(columns=cs)`. -/
def dropCols (fr : Frame) (cs : List String) : Frame :=
  ⟨fr.cols.filter (fun c => !(cs.contains c)),
   fr.rows.map (dropColsRow cs fr.cols)⟩

/-- The taxon-label reconstruction block of `calculate_mni`: when the
column is absent or partially null, fill it sequentially from the
alternative taxon columns that exist and drop them, or raise when no
alternative column exists. -/
def reconTaxon (fr : Frame) : Except MniError Frame :=
  if needsTaxon fr then
    let alt := altTaxonCols.filter (hasCol fr)
    if alt = [] then Except.error MniError.noTaxonAlternatives
    else
      let fr1 := if hasCol fr "Taxon Label" then fr
                 else addCol fr "Taxon Label" Cell.na
      Except.ok (dropCols (alt.foldl fillTaxonFrom fr1) alt)
  else Except.ok fr

/-- A row passes `df.dropna(subset=subset)`: no null in any listed column. -/
def rowCompleteOn (cols : List String) (subset : List String) (row : List Cell) : Bool :=
  subset.all (fun c => !(getCell cols row c = Cell.na))

/-- `df.dropna(subset=subset)`. -/
def dropnaOn (fr : Frame) (subset : List String) : Frame :=
  ⟨fr.cols, fr.rows.filter (rowCompleteOn fr.cols subset)⟩

/-- The five-key tuple of a row, in `keyCols` order. -/
def keyOf (cols : List String) (row : List Cell) : List Cell :=
  keyCols.map (getCell cols row)

/-- The label a cell contributes as a pivot column name.  Side values in
the data are strings; the label of an integer cell is its decimal
rendering and null never reaches this function in the pipeline. -/
def cellLabel : Cell → String
  | Cell.str s => s
  | Cell.int n => toString n
  | Cell.na => ""

/-- The pivot step of the raw branch
(`df.pivot_table(index=[five keys], columns="Side", aggfunc="size",
fill_value=0)`): rows with a null in any grouping key (the five keys or
the side) are dropped by the underlying groupby, the remaining rows are
grouped by the five-key tuple (sorted), one column per observed side
value (sorted), each cell the occurrence count, zero where absent.
`pivotRowsKept` is the set of rows surviving the groupby null-drop. -/
def pivotRowsKept (fr : Frame) : List (List Cell) :=
  fr.rows.filter (fun r =>
    !((keyOf fr.cols r).contains Cell.na) &&
    !(getCell fr.cols r "Side" = Cell.na))

/-- The sorted distinct five-key tuples of the kept rows (the pivot
index). -/
def pivotKeys (fr : Frame) : List (List Cell) :=
  sortBy keyLe (((pivotRowsKept fr).map (keyOf fr.cols)).dedup)

/-- The sorted distinct side labels of the kept rows (the pivot
columns). -/
def pivotSides (fr : Frame) : List String :=
  sortBy strLe
    (((pivotRowsKept fr).map
      (fun r => cellLabel (getCell fr.cols r "Side"))).dedup)

/-- Occurrence count of one key/side combination among the kept rows. -/
def pivotCount (fr : Frame) (k : List Cell) (s : String) : Nat :=
  ((pivotRowsKept fr).filter (fun r =>
    keyOf fr.cols r = k ∧
    cellLabel (getCell fr.cols r "Side") = s)).length

def mkPivot (fr : Frame) : Frame :=
  ⟨keyCols ++ pivotSides fr,
   (pivotKeys fr).map (fun k => k ++ (pivotSides fr).map (fun s =>
     Cell.int (pivotCount fr k s)))⟩

/-- The element-name normalisation applied to one cell: blank or
whitespace-only strings and nulls become the literal `"teeth"`
(`pivot[elem].replace(r"^\s*$", pd.NA, regex=True).fillna("teeth")`). -/
def teethFix : Cell → Cell
  | Cell.str s => if trimStr s = "" then Cell.str "teeth" else Cell.str s
  | Cell.na => Cell.str "teeth"
  | Cell.int n => Cell.int n

/-- Apply `teethFix` to the element column of every row. -/
def teethNormalize (fr : Frame) : Frame :=
  ⟨fr.cols, fr.rows.map (mapColRow "What element is this?" teethFix fr.cols)⟩

/-- The side-count columns: every column that is not one of the five key
columns. -/
def sideColsOf (cols : List String) : List String :=
  cols.filter (fun c => !(keyCols.contains c))

/-- Apply `f` to the cells of every non-key position of a row (the
column-slice assignment `pivot.loc[mask, side_cols] = ...`). -/
def mapNonKey : List String → (Cell → Cell) → List Cell → List Cell
  | [], _, r => r
  | _ :: _, _, [] => []
  | c :: cs, f, v :: vs =>
    (if keyCols.contains c then v else f v) :: mapNonKey cs f vs

/-- The element name of a row lower-cased matches `e`
(`pivot["What element is this?"].str.lower() == e`; a non-string cell
gives NaN on the pandas side and never matches). -/
def elemMatches (cols : List String) (row : List Cell) (e : String) : Bool :=
  match getCell cols row "What element is this?" with
  | Cell.str s => lowerStr s = e
  | _ => false

/-- Force every side count of the nonidentifiable-bone rows to `1`
(`pivot.loc[mask, side_cols] = 1`). -/
def forceNonident (fr : Frame) : Frame :=
  ⟨fr.cols, fr.rows.map (fun r =>
    if elemMatches fr.cols r "bone nonidentifiable"
    then mapNonKey fr.cols (fun _ => Cell.int 1) r else r)⟩

/-- Integer ceiling division: `intCeilDiv n d` is the ceiling of the real
quotient `n / d` for `d ≠ 0` (models `np.ceil(... / divisor).astype(int)`
on integer counts). -/
def intCeilDiv (n d : Int) : Int :=
  if 0 < d then -((-n).ediv d)
  else if d < 0 then -(n.ediv (-d))
  else 0

/-- Ceiling-divide an integer cell by the divisor; other cells are
untouched (counts in the pipeline are integers). -/
def ceilDivCell (d : Int) : Cell → Cell
  | Cell.int n => Cell.int (intCeilDiv n d)
  | c => c

/-- The divisor attached to one reference-table row after
`pd.to_numeric(divisor, errors="coerce")` and the
`pd.isna(divisor) or divisor == 0` skip. -/
def divisorVal (d : Cell) : Option Int :=
  match toNumeric d with
  | Cell.int n => if n = 0 then none else some n
  | _ => none

/-- One iteration of the divisor loop: if the entry's divisor is usable,
ceiling-divide every side count of every row whose element name matches
the entry's normalised element name. -/
def applyDivisorEntry (fr : Frame) (p : String × Cell) : Frame :=
  match divisorVal p.2 with
  | none => fr
  | some d =>
    ⟨fr.cols, fr.rows.map (fun r =>
      if elemMatches fr.cols r (lowerStr (trimStr p.1))
      then mapNonKey fr.cols (ceilDivCell d) r else r)⟩

/-- The whole divisor loop, iterating the reference table in source-row
order over the current (already corrected) pivot. -/
def applyDivisors (tbl : List (String × Cell)) (fr : Frame) : Frame :=
  tbl.foldl applyDivisorEntry fr

/-- The count-correction block: it runs only when side-count columns
exist, first forcing the nonidentifiable-bone rows to one and then
iterating the external element-divisor table. -/
def correctCounts (tbl : List (String × Cell)) (fr : Frame) : Frame :=
  if sideColsOf fr.cols = [] then fr
  else applyDivisors tbl (forceNonident fr)

/-- Maximum of a list of integers, `none` when empty (pandas `max` with
`skipna=True` over the extracted values). -/
def maxList : List Int → Option Int
  | [] => none
  | x :: xs =>
    match maxList xs with
    | none => some x
    | some m => some (max x m)

/-- The integer value of a cell, if any. -/
def cellInt : Cell → Option Int
  | Cell.int n => some n
  | _ => none

/-- `element_mni` of one row: the maximum over its side-count cells,
skipping nulls, `none` (NaN) when no numeric side count exists
(`pivot[side_cols].max(axis=1)`). -/
def elementMni (cells : List Cell) : Option Int :=
  maxList (cells.filterMap cellInt)

/-- Maximum of optional values with NaN skipped
(a pandas groupby `max`: `none` only when every value is `none`). -/
def maxOpt (l : List (Option Int)) : Option Int :=
  maxList (l.filterMap id)

/-- The (transect, taxon, age, sex) group key of a row. -/
def key4Of (cols : List String) (row : List Cell) : List Cell :=
  ["TransectUID", "Taxon Label", "Pre: Age", "Pre: Sex"].map (getCell cols row)

/-- The two grouping levels and the output assembly of `calculate_mni`:
`element_mni` per pivoted row, the maximum per
(transect, taxon, age, sex) group, the sum of the group maxima per
transect (pandas sums NaN maxima as zero), and the final re-coercion of
the transect identifier.  Group keys containing a null are dropped and
groups come out sorted, as pandas groupby does.
`mniRowVal` is the `element_mni` of one pivoted row
(`pivot[side_cols].max(axis=1)`). -/
def mniRowVal (pv : Frame) (r : List Cell) : Option Int :=
  elementMni ((sideColsOf pv.cols).map (getCell pv.cols r))

/-- The sorted distinct complete (transect, taxon, age, sex) group keys
(pandas groupby drops keys containing a null and sorts). -/
def aggKeys (pv : Frame) : List (List Cell) :=
  sortBy keyLe
    (((pv.rows.map (key4Of pv.cols)).filter
        (fun k => !(k.contains Cell.na))).dedup)

/-- The group-level MNI of one (transect, taxon, age, sex) key: the
maximum `element_mni` over the group members, NaN skipped. -/
def groupMax (pv : Frame) (k : List Cell) : Option Int :=
  maxOpt ((pv.rows.filter (fun r => key4Of pv.cols r = k)).map (mniRowVal pv))

/-- The sorted distinct non-null transect identifiers of the group
keys (the keys of the outer groupby). -/
def aggTuids (pv : Frame) : List Cell :=
  sortBy cellLe
    ((((aggKeys pv).map (fun k => k.headD Cell.na)).filter
        (fun t => !(t = Cell.na))).dedup)

/-- The transect-level MNI: the sum of the group maxima of the groups
belonging to transect `t`, a NaN maximum summing as zero. -/
def transectSum (pv : Frame) (t : Cell) : Int :=
  (((aggKeys pv).filter (fun k => k.headD Cell.na = t)).map
    (fun k => (groupMax pv k).getD 0)).sum

def aggregate (pv : Frame) : Frame :=
  ⟨["TransectUID", "MNI"],
   (aggTuids pv).map (fun t =>
     [toNumeric t, Cell.int (transectSum pv t)])⟩

/-- Everything `calculate_mni` does after both input shapes have
converged on a pivot-form frame: element-name normalisation, count
correction, aggregation. -/
def sharedTail (tbl : List (String × Cell)) (pv : Frame) : Frame :=
  aggregate (correctCounts tbl (teethNormalize pv))

/-- Model of `calculate_mni` from `scripts/mni.py`, parameterised by the
element-divisor reference table (the `element`/`count` rows that
`_load_element_divisors` reads from the external spreadsheet, in
source-row order). -/
def calculate_mni (tbl : List (String × Cell)) (df : Frame) : Except MniError Frame :=
  if !(hasCol df "TransectUID") then
    Except.error (MniError.missingColumns ["TransectUID"])
  else
    match reconTaxon (coerceTuid df) with
    | Except.error e => Except.error e
    | Except.ok df2 =>
      if hasCol df2 "Side" then
        let missing := sortBy strLe
          ((keyCols ++ ["Side"]).filter (fun c => !(hasCol df2 c)))
        if !(missing = []) then Except.error (MniError.missingColumns missing)
        else
          Except.ok (sharedTail tbl (mkPivot (dropnaOn df2
            ["TransectUID", "Taxon Label", "Pre: Age", "Pre: Sex", "Side"])))
      else
        let missing := sortBy strLe (keyCols.filter (fun c => !(hasCol df2 c)))
        if !(missing = []) then Except.error (MniError.missingColumns missing)
        else
          Except.ok (sharedTail tbl (coerceTuid (dropnaOn df2 keyCols)))

/-! ### Specification-side definitions

These definitions follow the wording of the specification rather than the
source; the refinement theorems compare them with the source-derived
pipeline above. -/

/-- Modelled from the spec: the "equivalent pre-pivoted version" of a raw
table — one row per five-key combination, one column per observed side
value, each count cell holding the number of occurrences of that
key/side combination, and no `Side` column. -/
def prepivotSpec (fr : Frame) : Frame :=
  let keys := sortBy keyLe ((fr.rows.map (keyOf fr.cols)).dedup)
  let sides := sortBy strLe
    (((fr.rows.filter (fun r => !(getCell fr.cols r "Side" = Cell.na))).map
        (fun r => cellLabel (getCell fr.cols r "Side"))).dedup)
  ⟨keyCols ++ sides,
   keys.map (fun k => k ++ sides.map (fun s =>
     Cell.int ((fr.rows.filter (fun r =>
       keyOf fr.cols r = k ∧
       cellLabel (getCell fr.cols r "Side") = s)).length)))⟩

/-- Modelled from the spec: the transect-level MNI as a direct formula —
for each distinct (transect, taxon, age, sex) group of the pivoted rows
belonging to transect `t`, the maximum `element_mni` (itself the maximum
across the side-count columns) over the group's rows; the transect MNI
is the sum of these group maxima, summation happening only at this
level. -/
def transectMniSpec (pv : Frame) (t : Cell) : Int :=
  let sc := sideColsOf pv.cols
  let completeKeys := (pv.rows.map (key4Of pv.cols)).filter
    (fun k => !(k.contains Cell.na))
  let groups := (completeKeys.filter (fun k => k.headD Cell.na = t)).dedup
  (groups.map (fun k =>
    (maxOpt ((pv.rows.filter (fun r => key4Of pv.cols r = k)).map
      (fun r => elementMni (sc.map (getCell pv.cols r))))).getD 0)).sum

/-- Modelled from the spec: "replace each side-count `c` with
`ceil(c / divisor)` (integer result)" — the usual integer form of the
ceiling of `c / d` for a positive divisor `d`. -/
def ceilQuotSpec (c d : Int) : Int := (c + d - 1).ediv d

/-- The MNI value the output table pairs with transect identifier `t`:
the second cell of the first output row whose identifier cell is `t`. -/
def outMni (fr : Frame) (t : Cell) : Option Cell :=
  (fr.rows.find? (fun r => r.headD Cell.na = t)).map (fun r => r.getD 1 Cell.na)

/-- Some pivoted row carries transect `t` with a complete
(transect, taxon, age, sex) key. -/
def hasTransect (pv : Frame) (t : Cell) : Bool :=
  pv.rows.any (fun r =>
    !((key4Of pv.cols r).contains Cell.na) &&
    (key4Of pv.cols r).headD Cell.na = t)

/-! ### Validity of a raw-shape input (used by the shape-invariance
claim).  A "valid" raw table has the six raw columns; each row is
positionally aligned with the column list, carries an integer transect
identifier, non-null taxon/age/sex/element cells and a string side value
whose label is not itself one of the reserved column names. -/

/-- A side value may not collide with the five key column names nor with
the literal name `Side` (otherwise its pivot column would shadow them). -/
def goodSideLabel (s : String) : Bool :=
  !(keyCols.contains s) && !(s = "Side")

/-- Validity requirement for the cell sitting in column `c`. -/
def cellOkFor (c : String) (v : Cell) : Bool :=
  if c = "TransectUID" then (cellInt v).isSome
  else if c = "Taxon Label" ∨ c = "Pre: Age" ∨ c = "Pre: Sex" ∨
          c = "What element is this?" then !(v = Cell.na)
  else if c = "Side" then
    (match v with
     | Cell.str s => goodSideLabel s
     | _ => false)
  else true

/-- A row is aligned with the columns and each cell satisfies the
requirement of its column. -/
def rowOkRaw : List String → List Cell → Bool
  | [], [] => true
  | [], _ :: _ => false
  | _ :: _, [] => false
  | c :: cs, v :: vs => cellOkFor c v && rowOkRaw cs vs

/-- A valid raw-shape input table. -/
def ValidRaw (fr : Frame) : Bool :=
  (["TransectUID", "Taxon Label", "Pre: Age", "Pre: Sex",
    "What element is this?", "Side"].all (hasCol fr)) &&
  fr.rows.all (rowOkRaw fr.cols)

/-! ### `compare_consecutive_seasons`
(scripts/pairwise_field_season_comparison.py)

The input is modelled as the list of (season, value) cell pairs of the
two relevant columns; Welch's t-test itself (SciPy `ttest_ind` with
`equal_var=False`, applied as `ttest_ind(group_b, group_a)`) is a
floating-point routine and is abstracted as a function parameter
returning the (statistic, p-value) pair. -/

/-- One output row of the comparison (the `SeasonComparison` dataclass). -/
structure SeasonComparison where
  season_a : Cell
  season_b : Cell
  mean_a : ℚ
  mean_b : ℚ
  t_stat : ℚ
  p_value : ℚ
  significant : Bool
deriving DecidableEq, Repr

/-- The numeric value of a cell for the statistics. -/
def cellQ : Cell → Option ℚ
  | Cell.int n => some (n : ℚ)
  | _ => none

/-- Arithmetic mean. -/
def meanQ (l : List ℚ) : ℚ := l.sum / l.length

/-- Rounding to four decimal places (`DataFrame.round(4)`; ties modelled
as rounding half up). -/
def round4 (q : ℚ) : ℚ := ((q * 10000 + 1 / 2).floor : ℚ) / 10000

/-- Model of `compare_consecutive_seasons`: distinct non-null seasons
sorted ascending; for each adjacent pair the non-null value groups are
built, the pair is skipped when either group is empty, and otherwise one
comparison row is emitted with the later season as first t-test operand
and the rounded summary statistics. -/
def compare_consecutive_seasons (ttest : List ℚ → List ℚ → ℚ × ℚ)
    (df : List (Cell × Cell)) (alpha : ℚ) : List SeasonComparison :=
  let fieldSeasons := sortBy cellLe
    (((df.map Prod.fst).filter (fun s => !(s = Cell.na))).dedup)
  (fieldSeasons.zip fieldSeasons.tail).filterMap (fun p =>
    let groupA := ((df.filter (fun r => r.1 = p.1)).map Prod.snd).filterMap cellQ
    let groupB := ((df.filter (fun r => r.1 = p.2)).map Prod.snd).filterMap cellQ
    if 0 < groupA.length ∧ 0 < groupB.length then
      let sp := ttest groupB groupA
      some { season_a := p.1, season_b := p.2,
             mean_a := round4 (meanQ groupA), mean_b := round4 (meanQ groupB),
             t_stat := round4 sp.1, p_value := round4 sp.2,
             significant := decide (sp.2 < alpha) }
    else none)

deriving instance DecidableEq for Except

/-- Per-row form of one divisor-loop iteration (the frame-wise
`applyDivisorEntry` acts row-wise; this is its action on one row). -/
def divEntryRow (cols : List String) (p : String × Cell) (r : List Cell) :
    List Cell :=
  match divisorVal p.2 with
  | none => r
  | some d =>
    if elemMatches cols r (lowerStr (trimStr p.1))
    then mapNonKey cols (ceilDivCell d) r else r

/-- Per-row form of the whole divisor loop, in source-row order. -/
def divRowAll (tbl : List (String × Cell)) (cols : List String)
    (r : List Cell) : List Cell :=
  tbl.foldl (fun r p => divEntryRow cols p r) r

/-! ### Concrete sample inputs used to instantiate the theorems -/

/-- A small valid raw-shape table: two transects, several specimens. -/
def sampleRaw : Frame :=
  ⟨["TransectUID", "Taxon Label", "Pre: Age", "Pre: Sex",
    "What element is this?", "Side"],
   [[Cell.int 1, Cell.str "zebra", Cell.str "adult", Cell.str "m",
     Cell.str "femur", Cell.str "left"],
    [Cell.int 1, Cell.str "zebra", Cell.str "adult", Cell.str "m",
     Cell.str "femur", Cell.str "left"],
    [Cell.int 1, Cell.str "zebra", Cell.str "adult", Cell.str "m",
     Cell.str "femur", Cell.str "right"],
    [Cell.int 1, Cell.str "zebra", Cell.str "adult", Cell.str "m",
     Cell.str "tibia", Cell.str "left"],
    [Cell.int 1, Cell.str "gnu", Cell.str "adult", Cell.str "f",
     Cell.str "skull", Cell.str "axial"],
    [Cell.int 2, Cell.str "zebra", Cell.str "adult", Cell.str "m",
     Cell.str "femur", Cell.str "left"]]⟩

/-- A small pivoted-shape table (columns `left` and `right`). -/
def samplePivot : Frame :=
  ⟨["TransectUID", "Taxon Label", "Pre: Age", "Pre: Sex",
    "What element is this?", "left", "right"],
   [[Cell.int 1, Cell.str "zebra", Cell.str "adult", Cell.str "m",
     Cell.str "femur", Cell.int 3, Cell.int 5],
    [Cell.int 1, Cell.str "zebra", Cell.str "adult", Cell.str "m",
     Cell.str "tibia", Cell.int 1, Cell.int 0],
    [Cell.int 1, Cell.str "gnu", Cell.str "adult", Cell.str "f",
     Cell.str "skull", Cell.int 2, Cell.int 0]]⟩

/-- Raw-shape table whose single row has a null `Side` value and
non-null five key cells. -/
def rawNullSide : Frame :=
  ⟨["TransectUID", "Taxon Label", "Pre: Age", "Pre: Sex",
    "What element is this?", "Side"],
   [[Cell.int 1, Cell.str "zebra", Cell.str "adult", Cell.str "m",
     Cell.str "femur", Cell.na]]⟩

/-- The same table with the side filled in. -/
def rawWithSide : Frame :=
  ⟨["TransectUID", "Taxon Label", "Pre: Age", "Pre: Sex",
    "What element is this?", "Side"],
   [[Cell.int 1, Cell.str "zebra", Cell.str "adult", Cell.str "m",
     Cell.str "femur", Cell.str "left"]]⟩

/-- Raw-shape table whose single row has a null element name and
non-null cells everywhere else. -/
def rawNullElem : Frame :=
  ⟨["TransectUID", "Taxon Label", "Pre: Age", "Pre: Sex",
    "What element is this?", "Side"],
   [[Cell.int 1, Cell.str "zebra", Cell.str "adult", Cell.str "m",
     Cell.na, Cell.str "left"]]⟩

/-- Raw-shape table whose element names are whitespace-only (two
specimens of the same key, so the pivot count is 2). -/
def rawBlankElem : Frame :=
  ⟨["TransectUID", "Taxon Label", "Pre: Age", "Pre: Sex",
    "What element is this?", "Side"],
   [[Cell.int 1, Cell.str "zebra", Cell.str "adult", Cell.str "m",
     Cell.str "  ", Cell.str "left"],
    [Cell.int 1, Cell.str "zebra", Cell.str "adult", Cell.str "m",
     Cell.str "  ", Cell.str "left"]]⟩

/-- Pivoted table with the taxon label present but null in its only row
and no alternative taxon columns. -/
def pivotNullTaxon : Frame :=
  ⟨["TransectUID", "Taxon Label", "Pre: Age", "Pre: Sex",
    "What element is this?"],
   [[Cell.int 1, Cell.na, Cell.str "adult", Cell.str "m",
     Cell.str "femur"]]⟩

/-- Pivoted table with a mixed-case nonidentifiable-bone row and side
counts left = 4, right = 0. -/
def pivotNonident : Frame :=
  ⟨["TransectUID", "Taxon Label", "Pre: Age", "Pre: Sex",
    "What element is this?", "left", "right"],
   [[Cell.int 1, Cell.str "zebra", Cell.str "adult", Cell.str "m",
     Cell.str "Bone Nonidentifiable", Cell.int 4, Cell.int 0]]⟩

/-- Pivoted table with a `tooth` row of count 5 (divisor-table case). -/
def pivotTooth : Frame :=
  ⟨["TransectUID", "Taxon Label", "Pre: Age", "Pre: Sex",
    "What element is this?", "left"],
   [[Cell.int 3, Cell.str "zebra", Cell.str "adult", Cell.str "m",
     Cell.str "tooth", Cell.int 5]]⟩

/-- Pivoted table with an element `x` of count 5 (duplicate-divisor
case). -/
def pivotDup : Frame :=
  ⟨["TransectUID", "Taxon Label", "Pre: Age", "Pre: Sex",
    "What element is this?", "left"],
   [[Cell.int 1, Cell.str "zebra", Cell.str "adult", Cell.str "m",
     Cell.str "x", Cell.int 5]]⟩

/-- Pivoted table whose only count column is an extra non-side column
`Notes` holding the value 7. -/
def pivotExtraNotes : Frame :=
  ⟨["TransectUID", "Taxon Label", "Pre: Age", "Pre: Sex",
    "What element is this?", "left", "Notes"],
   [[Cell.int 1, Cell.str "zebra", Cell.str "adult", Cell.str "m",
     Cell.str "femur", Cell.int 1, Cell.int 7]]⟩

/-- The same table without the extra `Notes` column. -/
def pivotNoNotes : Frame :=
  ⟨["TransectUID", "Taxon Label", "Pre: Age", "Pre: Sex",
    "What element is this?", "left"],
   [[Cell.int 1, Cell.str "zebra", Cell.str "adult", Cell.str "m",
     Cell.str "femur", Cell.int 1]]⟩

/-- `pivotExtraNotes` with a nonidentifiable-bone element name. -/
def pivotExtraNonident : Frame :=
  ⟨["TransectUID", "Taxon Label", "Pre: Age", "Pre: Sex",
    "What element is this?", "left", "Notes"],
   [[Cell.int 1, Cell.str "zebra", Cell.str "adult", Cell.str "m",
     Cell.str "bone nonidentifiable", Cell.int 1, Cell.int 7]]⟩

/-- Pivoted table with only the five key columns (no count columns). -/
def pivotBare : Frame :=
  ⟨["TransectUID", "Taxon Label", "Pre: Age", "Pre: Sex",
    "What element is this?"],
   [[Cell.int 1, Cell.str "zebra", Cell.str "adult", Cell.str "m",
     Cell.str "femur"],
    [Cell.int 4, Cell.str "gnu", Cell.str "adult", Cell.str "f",
     Cell.str "skull"]]⟩

/-- Five-key-only table whose taxon label is null in one row. -/
def pivotBareNullTaxon : Frame :=
  ⟨["TransectUID", "Taxon Label", "Pre: Age", "Pre: Sex",
    "What element is this?"],
   [[Cell.int 7, Cell.na, Cell.str "x", Cell.str "y", Cell.str "z"]]⟩

/-- Season/value pairs for seasons 2019, 2020, 2021 where season 2020
is present in the season column but all its values are null. -/
def seasonsGap : List (Cell × Cell) :=
  [(Cell.int 2019, Cell.int 5),
   (Cell.int 2019, Cell.int 6),
   (Cell.int 2020, Cell.na),
   (Cell.int 2021, Cell.int 7),
   (Cell.int 2021, Cell.int 9)]

/-- A t-test stub used to instantiate the comparator theorems (the
statistic itself is irrelevant to the row-emission behaviour). -/
def ttestZero : List ℚ → List ℚ → ℚ × ℚ := fun _ _ => (0, 0)

/-! ### Basic lemmas about the list machinery -/

theorem insertBy_perm {α : Type} (le : α → α → Bool) (a : α) (l : List α) :
    (insertBy le a l).Perm (a :: l) := by
  induction l with
  | nil => simp [insertBy]
  | cons b bs ih =>
    simp only [insertBy]
    by_cases h : le a b = true
    · simp [h]
    · simp only [h]
      exact ((ih.cons b).trans (List.Perm.swap a b bs))

theorem sortBy_perm {α : Type} (le : α → α → Bool) (l : List α) :
    (sortBy le l).Perm l := by
  induction l with
  | nil => simp [sortBy]
  | cons a as ih =>
    exact (insertBy_perm le a (sortBy le as)).trans (ih.cons a)

theorem mem_sortBy {α : Type} (le : α → α → Bool) (a : α) (l : List α) :
    a ∈ sortBy le l ↔ a ∈ l :=
  (sortBy_perm le l).mem_iff

theorem maxList_all_one (l : List Int) (h : ∀ x ∈ l, x = 1) (hne : l ≠ []) :
    maxList l = some 1 := by
  induction l with
  | nil => exact absurd rfl hne
  | cons x xs ih =>
    have hx : x = 1 := h x (by simp)
    by_cases hxs : xs = []
    · subst hxs hx; simp [maxList]
    · have := ih (fun y hy => h y (by simp [hy])) hxs
      simp [maxList, this, hx]

theorem dedup_filter {α : Type} [DecidableEq α] (p : α → Bool) (l : List α) :
    (l.filter p).dedup = l.dedup.filter p := by
  induction l with
  | nil => simp
  | cons a l ih =>
    by_cases hm : a ∈ l
    · have hd : (a :: l).dedup = l.dedup := List.dedup_cons_of_mem hm
      by_cases hp : p a = true
      · have hmf : a ∈ l.filter p := List.mem_filter.mpr ⟨hm, hp⟩
        simp only [List.filter_cons, hp, if_pos]
        rw [List.dedup_cons_of_mem hmf, ih, hd]
      · simp [List.filter_cons, hp, hd, ih]
    · have hd : (a :: l).dedup = a :: l.dedup := List.dedup_cons_of_not_mem hm
      by_cases hp : p a = true
      · have hmf : a ∉ l.filter p := fun hc => hm (List.mem_of_mem_filter hc)
        simp only [List.filter_cons, hp, if_pos]
        rw [List.dedup_cons_of_not_mem hmf, ih, hd]
        simp [List.filter_cons, hp]
      · simp [List.filter_cons, hp, hd, ih]

theorem length_filterMap_eq_countP {α β : Type} (f : α → Option β) (l : List α) :
    (l.filterMap f).length = l.countP (fun a => (f a).isSome) := by
  induction l with
  | nil => simp
  | cons a l ih =>
    cases hfa : f a with
    | none => simp [List.filterMap_cons, hfa, List.countP_cons, ih]
    | some b => simp [List.filterMap_cons, hfa, List.countP_cons, ih]

/-! ### Lemmas about cell access and column-wise maps -/

theorem getCell_mapColRow_self (c : String) (f : Cell → Cell)
    (hf : f Cell.na = Cell.na) :
    ∀ (cols : List String) (row : List Cell),
      getCell cols (mapColRow c f cols row) c = f (getCell cols row c) := by
  intro cols
  induction cols with
  | nil => intro row; simp [getCell, mapColRow, hf]
  | cons c0 cs ih =>
    intro row
    cases row with
    | nil => simp [getCell, mapColRow, hf]
    | cons v vs =>
      by_cases h : c0 = c
      · simp [getCell, mapColRow, h]
      · simp [getCell, mapColRow, h, ih vs]

theorem getCell_mapColRow_ne (c c' : String) (f : Cell → Cell) (hne : c' ≠ c) :
    ∀ (cols : List String) (row : List Cell),
      getCell cols (mapColRow c f cols row) c' = getCell cols row c' := by
  intro cols
  induction cols with
  | nil => intro row; simp [getCell, mapColRow]
  | cons c0 cs ih =>
    intro row
    cases row with
    | nil => simp [getCell, mapColRow]
    | cons v vs =>
      by_cases h : c0 = c'
      · simp [getCell, mapColRow, h, hne]
      · by_cases h3 : c0 = c <;>
          simp [getCell, mapColRow, h, h3, ih vs, hne, Ne.symm hne]

theorem mapColRow_not_mem (c : String) (f : Cell → Cell) :
    ∀ (cols : List String) (row : List Cell), c ∉ cols →
      mapColRow c f cols row = row := by
  intro cols
  induction cols with
  | nil => intro row _; simp [mapColRow]
  | cons c0 cs ih =>
    intro row hc
    cases row with
    | nil => simp [mapColRow]
    | cons v vs =>
      have h0 : ¬ c0 = c := fun h => hc (h ▸ List.mem_cons_self c0 cs)
      have hcs : c ∉ cs := fun h => hc (List.mem_cons_of_mem c0 h)
      simp [mapColRow, h0, ih vs hcs]

theorem mapColRow_append (c : String) (f : Cell → Cell) :
    ∀ (cs1 : List String) (r1 : List Cell) (cs2 : List String) (r2 : List Cell),
      r1.length = cs1.length →
      mapColRow c f (cs1 ++ cs2) (r1 ++ r2) =
        mapColRow c f cs1 r1 ++ mapColRow c f cs2 r2 := by
  intro cs1
  induction cs1 with
  | nil =>
    intro r1 cs2 r2 hlen
    have : r1 = [] := List.length_eq_zero.mp hlen
    simp [this, mapColRow]
  | cons c0 cs ih =>
    intro r1 cs2 r2 hlen
    cases r1 with
    | nil => simp at hlen
    | cons v vs =>
      simp only [List.cons_append, mapColRow, List.append_eq]
      rw [ih vs cs2 r2 (by simpa using hlen)]

theorem getCell_mapNonKey_key (c : String) (f : Cell → Cell)
    (hkey : c ∈ keyCols) :
    ∀ (cols : List String) (row : List Cell),
      getCell cols (mapNonKey cols f row) c = getCell cols row c := by
  intro cols
  induction cols with
  | nil => intro row; simp [getCell, mapNonKey]
  | cons c0 cs ih =>
    intro row
    cases row with
    | nil => simp [getCell, mapNonKey]
    | cons v vs =>
      by_cases h : c0 = c
      · subst h; simp [getCell, mapNonKey, hkey]
      · simp [getCell, mapNonKey, h, ih vs]

theorem getCell_mapNonKey_side (c : String) (f : Cell → Cell)
    (hkey : c ∉ keyCols) :
    ∀ (cols : List String) (row : List Cell), c ∈ cols →
      row.length = cols.length →
      getCell cols (mapNonKey cols f row) c = f (getCell cols row c) := by
  intro cols
  induction cols with
  | nil => intro row hc; simp at hc
  | cons c0 cs ih =>
    intro row hc hlen
    cases row with
    | nil => simp at hlen
    | cons v vs =>
      by_cases h : c0 = c
      · subst h; simp [getCell, mapNonKey, hkey]
      · have hcs : c ∈ cs := by
          rcases List.mem_cons.mp hc with h1 | h1
          · exact absurd h1.symm h
          · exact h1
        simp [getCell, mapNonKey, h, ih vs hcs (by simpa using hlen)]

theorem map_eq_self {α : Type} (f : α → α) (l : List α)
    (h : ∀ x ∈ l, f x = x) : l.map f = l := by
  induction l with
  | nil => rfl
  | cons a l ih => simp [h a (by simp), ih (fun x hx => h x (by simp [hx]))]

/-! ### Consequences of raw-input validity -/

theorem rowOk_getCell (c : String) :
    ∀ (cols : List String) (row : List Cell),
      rowOkRaw cols row = true → c ∈ cols →
      cellOkFor c (getCell cols row c) = true := by
  intro cols
  induction cols with
  | nil => intro row _ hc; simp at hc
  | cons c0 cs ih =>
    intro row hok hc
    cases row with
    | nil => simp [rowOkRaw] at hok
    | cons v vs =>
      simp only [rowOkRaw, Bool.and_eq_true] at hok
      by_cases h : c0 = c
      · subst h; simp [getCell, hok.1]
      · rcases List.mem_cons.mp hc with h1 | h1
        · exact absurd h1.symm h
        · simp [getCell, h, ih vs hok.2 h1]

theorem cellOk_tuid {v : Cell} (h : cellOkFor "TransectUID" v = true) :
    ∃ n, v = Cell.int n := by
  cases v with
  | int n => exact ⟨n, rfl⟩
  | na => simp [cellOkFor, cellInt] at h
  | str s => simp [cellOkFor, cellInt] at h

theorem cellOk_taxon {v : Cell} (h : cellOkFor "Taxon Label" v = true) :
    ¬ v = Cell.na := by
  intro hv; subst hv; simp [cellOkFor] at h

theorem cellOk_age {v : Cell} (h : cellOkFor "Pre: Age" v = true) :
    ¬ v = Cell.na := by
  intro hv; subst hv; simp [cellOkFor] at h

theorem cellOk_sex {v : Cell} (h : cellOkFor "Pre: Sex" v = true) :
    ¬ v = Cell.na := by
  intro hv; subst hv; simp [cellOkFor] at h

theorem cellOk_elem {v : Cell} (h : cellOkFor "What element is this?" v = true) :
    ¬ v = Cell.na := by
  intro hv; subst hv; simp [cellOkFor] at h

theorem cellOk_side {v : Cell} (h : cellOkFor "Side" v = true) :
    ∃ s, v = Cell.str s ∧ goodSideLabel s = true := by
  cases v with
  | str s =>
    refine ⟨s, rfl, ?_⟩
    simpa [cellOkFor] using h
  | na => simp [cellOkFor] at h
  | int n => simp [cellOkFor] at h

theorem validRaw_hasCols {fr : Frame} (h : ValidRaw fr = true) :
    "TransectUID" ∈ fr.cols ∧ "Taxon Label" ∈ fr.cols ∧
    "Pre: Age" ∈ fr.cols ∧ "Pre: Sex" ∈ fr.cols ∧
    "What element is this?" ∈ fr.cols ∧ "Side" ∈ fr.cols := by
  simp [ValidRaw, hasCol, List.all_eq_true] at h
  exact ⟨h.1.1, h.1.2.1, h.1.2.2.1, h.1.2.2.2.1, h.1.2.2.2.2.1, h.1.2.2.2.2.2⟩

theorem validRaw_rowOk {fr : Frame} (h : ValidRaw fr = true) :
    ∀ r ∈ fr.rows, rowOkRaw fr.cols r = true := by
  have h2 := (Bool.and_eq_true _ _).mp h
  intro r hr
  exact (List.all_eq_true.mp h2.2) r hr

theorem mapColRow_tuid_rowOk :
    ∀ (cols : List String) (row : List Cell), rowOkRaw cols row = true →
      mapColRow "TransectUID" toNumeric cols row = row := by
  intro cols
  induction cols with
  | nil => intro row _; simp [mapColRow]
  | cons c0 cs ih =>
    intro row hok
    cases row with
    | nil => simp [rowOkRaw] at hok
    | cons v vs =>
      simp only [rowOkRaw, Bool.and_eq_true] at hok
      by_cases h : c0 = "TransectUID"
      · obtain ⟨n, hn⟩ := cellOk_tuid (h ▸ hok.1)
        simp [mapColRow, h, hn, toNumeric, ih vs hok.2]
      · simp [mapColRow, h, ih vs hok.2]

theorem coerceTuid_validRaw {fr : Frame} (h : ValidRaw fr = true) :
    coerceTuid fr = fr := by
  cases fr with
  | mk cols rows =>
    simp only [coerceTuid]
    refine congrArg (Frame.mk cols) ?_
    exact map_eq_self _ _ (fun r hr =>
      mapColRow_tuid_rowOk cols r (validRaw_rowOk h r hr))

theorem needsTaxon_validRaw {fr : Frame} (h : ValidRaw fr = true) :
    needsTaxon fr = false := by
  have hcols := validRaw_hasCols h
  have hna : Cell.na ∉ colCells fr "Taxon Label" := by
    intro hmem
    obtain ⟨r, hr, hget⟩ := List.mem_map.mp hmem
    exact cellOk_taxon
      (rowOk_getCell _ _ _ (validRaw_rowOk h r hr) hcols.2.1) hget
  simp [needsTaxon, hasCol, hcols.2.1, hna]

theorem rowComplete_validRaw {fr : Frame} (h : ValidRaw fr = true)
    {r : List Cell} (hr : r ∈ fr.rows) :
    rowCompleteOn fr.cols
      ["TransectUID", "Taxon Label", "Pre: Age", "Pre: Sex", "Side"] r = true := by
  have hok := validRaw_rowOk h r hr
  have hcols := validRaw_hasCols h
  obtain ⟨n, hn⟩ := cellOk_tuid (rowOk_getCell _ _ _ hok hcols.1)
  have ht := cellOk_taxon (rowOk_getCell _ _ _ hok hcols.2.1)
  have ha := cellOk_age (rowOk_getCell _ _ _ hok hcols.2.2.1)
  have hs := cellOk_sex (rowOk_getCell _ _ _ hok hcols.2.2.2.1)
  obtain ⟨s, hside, _⟩ := cellOk_side (rowOk_getCell _ _ _ hok hcols.2.2.2.2.2)
  simp [rowCompleteOn, hn, ht, ha, hs, hside]

theorem dropna_validRaw {fr : Frame} (h : ValidRaw fr = true) :
    dropnaOn fr ["TransectUID", "Taxon Label", "Pre: Age", "Pre: Sex", "Side"] = fr := by
  have hall : ∀ r ∈ fr.rows, rowCompleteOn fr.cols
      ["TransectUID", "Taxon Label", "Pre: Age", "Pre: Sex", "Side"] r = true :=
    fun r hr => rowComplete_validRaw h hr
  cases fr with
  | mk cols rows =>
    simp only [dropnaOn]
    exact congrArg (Frame.mk cols) (List.filter_eq_self.mpr hall)

theorem pivotRowsKept_validRaw {fr : Frame} (h : ValidRaw fr = true) :
    pivotRowsKept fr = fr.rows := by
  refine List.filter_eq_self.mpr (fun r hr => ?_)
  have hok := validRaw_rowOk h r hr
  have hcols := validRaw_hasCols h
  obtain ⟨n, hn⟩ := cellOk_tuid (rowOk_getCell _ _ _ hok hcols.1)
  have ht := cellOk_taxon (rowOk_getCell _ _ _ hok hcols.2.1)
  have ha := cellOk_age (rowOk_getCell _ _ _ hok hcols.2.2.1)
  have hs := cellOk_sex (rowOk_getCell _ _ _ hok hcols.2.2.2.1)
  have he := cellOk_elem (rowOk_getCell _ _ _ hok hcols.2.2.2.2.1)
  obtain ⟨s, hside, _⟩ := cellOk_side (rowOk_getCell _ _ _ hok hcols.2.2.2.2.2)
  simp [keyOf, keyCols, hn, hside]
  exact ⟨fun hc => ht hc.symm, fun hc => ha hc.symm,
    fun hc => hs hc.symm, fun hc => he hc.symm⟩

theorem calculate_mni_validRaw (tbl : List (String × Cell)) {fr : Frame}
    (h : ValidRaw fr = true) :
    calculate_mni tbl fr = Except.ok (sharedTail tbl (mkPivot fr)) := by
  have hcols := validRaw_hasCols h
  have hco := coerceTuid_validRaw h
  have hnt := needsTaxon_validRaw h
  have hdrop := dropna_validRaw h
  have hhas : hasCol fr "TransectUID" = true := by simp [hasCol, hcols.1]
  have hside : hasCol fr "Side" = true := by simp [hasCol, hcols.2.2.2.2.2]
  have hrecon : reconTaxon (coerceTuid fr) = Except.ok fr := by
    rw [hco]; simp [reconTaxon, hnt]
  have hmiss : (keyCols ++ ["Side"]).filter (fun c => !(hasCol fr c)) = [] := by
    refine List.filter_eq_nil_iff.mpr (fun c hc => ?_)
    have : c = "TransectUID" ∨ c = "Taxon Label" ∨ c = "Pre: Age" ∨
        c = "Pre: Sex" ∨ c = "What element is this?" ∨ c = "Side" := by
      simpa [keyCols] using hc
    rcases this with rfl | rfl | rfl | rfl | rfl | rfl <;>
      simp [hasCol, hcols.1, hcols.2.1, hcols.2.2.1, hcols.2.2.2.1,
        hcols.2.2.2.2.1, hcols.2.2.2.2.2]
  simp [calculate_mni, hhas, hrecon, hside, hmiss, sortBy, hdrop]

theorem prepivotSpec_validRaw {fr : Frame} (h : ValidRaw fr = true) :
    prepivotSpec fr = mkPivot fr := by
  have hkept := pivotRowsKept_validRaw h
  have hfilt : fr.rows.filter
      (fun r => !(getCell fr.cols r "Side" = Cell.na)) = fr.rows := by
    refine List.filter_eq_self.mpr (fun r hr => ?_)
    have hok := validRaw_rowOk h r hr
    have hcols := validRaw_hasCols h
    obtain ⟨s, hside, _⟩ := cellOk_side (rowOk_getCell _ _ _ hok hcols.2.2.2.2.2)
    simp [hside]
  simp only [prepivotSpec, mkPivot, pivotKeys, pivotSides, pivotCount, hkept, hfilt]

theorem getCell_key5 (x1 x2 x3 x4 x5 : Cell) (sides : List String)
    (rest : List Cell) :
    getCell (keyCols ++ sides) ([x1, x2, x3, x4, x5] ++ rest) "TransectUID" = x1 ∧
    getCell (keyCols ++ sides) ([x1, x2, x3, x4, x5] ++ rest) "Taxon Label" = x2 ∧
    getCell (keyCols ++ sides) ([x1, x2, x3, x4, x5] ++ rest) "Pre: Age" = x3 ∧
    getCell (keyCols ++ sides) ([x1, x2, x3, x4, x5] ++ rest) "Pre: Sex" = x4 ∧
    getCell (keyCols ++ sides) ([x1, x2, x3, x4, x5] ++ rest)
      "What element is this?" = x5 := by
  simp [keyCols, getCell]

theorem pivotSides_good {fr : Frame} (h : ValidRaw fr = true) :
    ∀ s ∈ pivotSides fr, goodSideLabel s = true := by
  intro s hs
  rw [pivotSides, mem_sortBy] at hs
  obtain ⟨r, hr, hlab⟩ := List.mem_map.mp (List.mem_dedup.mp hs)
  rw [pivotRowsKept_validRaw h] at hr
  obtain ⟨s0, hside, hgood⟩ := cellOk_side
    (rowOk_getCell _ _ _ (validRaw_rowOk h r hr) (validRaw_hasCols h).2.2.2.2.2)
  rw [hside] at hlab
  simp only [cellLabel] at hlab
  exact hlab ▸ hgood

theorem pivotSides_not_key {fr : Frame} (h : ValidRaw fr = true)
    {c : String} (hc : c ∈ keyCols) : c ∉ pivotSides fr := by
  intro hmem
  have hgood := pivotSides_good h c hmem
  simp only [goodSideLabel, Bool.and_eq_true] at hgood
  have := hgood.1
  simp [hc] at this

theorem pivotSides_not_side {fr : Frame} (h : ValidRaw fr = true) :
    "Side" ∉ pivotSides fr := by
  intro hmem
  have hgood := pivotSides_good h "Side" hmem
  simp [goodSideLabel] at hgood

theorem pivotKeys_shape {fr : Frame} (h : ValidRaw fr = true) :
    ∀ k ∈ pivotKeys fr, ∃ (n : Int) (x2 x3 x4 x5 : Cell),
      k = [Cell.int n, x2, x3, x4, x5] ∧
      ¬ x2 = Cell.na ∧ ¬ x3 = Cell.na ∧ ¬ x4 = Cell.na ∧ ¬ x5 = Cell.na := by
  intro k hk
  rw [pivotKeys, mem_sortBy] at hk
  obtain ⟨r, hr, hkey⟩ := List.mem_map.mp (List.mem_dedup.mp hk)
  rw [pivotRowsKept_validRaw h] at hr
  have hok := validRaw_rowOk h r hr
  have hcols := validRaw_hasCols h
  obtain ⟨n, hn⟩ := cellOk_tuid (rowOk_getCell _ _ _ hok hcols.1)
  have ht := cellOk_taxon (rowOk_getCell _ _ _ hok hcols.2.1)
  have ha := cellOk_age (rowOk_getCell _ _ _ hok hcols.2.2.1)
  have hs := cellOk_sex (rowOk_getCell _ _ _ hok hcols.2.2.2.1)
  have he := cellOk_elem (rowOk_getCell _ _ _ hok hcols.2.2.2.2.1)
  refine ⟨n, _, _, _, _, ?_, ht, ha, hs, he⟩
  rw [← hkey]
  simp [keyOf, keyCols, hn]

theorem mkPivot_rows_shape (fr : Frame) :
    ∀ rr ∈ (mkPivot fr).rows, ∃ k, k ∈ pivotKeys fr ∧
      rr = k ++ (pivotSides fr).map (fun s => Cell.int (pivotCount fr k s)) := by
  intro rr hrr
  obtain ⟨k, hk, hkr⟩ := List.mem_map.mp hrr
  exact ⟨k, hk, hkr.symm⟩

theorem coerceTuid_mkPivot {fr : Frame} (h : ValidRaw fr = true) :
    coerceTuid (mkPivot fr) = mkPivot fr := by
  have hnk : "TransectUID" ∉ pivotSides fr :=
    pivotSides_not_key h (by simp [keyCols])
  simp only [coerceTuid]
  have hcols : (mkPivot fr).cols = keyCols ++ pivotSides fr := rfl
  rw [hcols]
  refine congrArg (Frame.mk (keyCols ++ pivotSides fr)) ?_
  refine map_eq_self _ _ (fun rr hrr => ?_)
  obtain ⟨k, hk, hkr⟩ := mkPivot_rows_shape fr rr hrr
  obtain ⟨n, x2, x3, x4, x5, hksh, _, _, _, _⟩ := pivotKeys_shape h k hk
  subst hkr hksh
  rw [mapColRow_append _ _ _ _ _ _ (by simp [keyCols])]
  rw [mapColRow_not_mem _ _ _ _ hnk]
  simp [keyCols, mapColRow, toNumeric]

theorem needsTaxon_mkPivot {fr : Frame} (h : ValidRaw fr = true) :
    needsTaxon (mkPivot fr) = false := by
  have hna : Cell.na ∉ colCells (mkPivot fr) "Taxon Label" := by
    intro hmem
    obtain ⟨rr, hrr, hget⟩ := List.mem_map.mp hmem
    obtain ⟨k, hk, hkr⟩ := mkPivot_rows_shape fr rr hrr
    obtain ⟨n, x2, x3, x4, x5, hksh, ht, _, _, _⟩ := pivotKeys_shape h k hk
    subst hkr hksh
    rw [show (mkPivot fr).cols = keyCols ++ pivotSides fr from rfl] at hget
    rw [(getCell_key5 (Cell.int n) x2 x3 x4 x5 (pivotSides fr) _).2.1] at hget
    exact ht hget
  have hhas : hasCol (mkPivot fr) "Taxon Label" = true := by
    simp [hasCol, mkPivot, keyCols]
  simp [needsTaxon, hhas, hna]

theorem hasCol_mkPivot_side {fr : Frame} (h : ValidRaw fr = true) :
    hasCol (mkPivot fr) "Side" = false := by
  have h1 : "Side" ∉ keyCols := by simp [keyCols]
  have h2 := pivotSides_not_side h
  have : "Side" ∉ (mkPivot fr).cols := by
    rw [show (mkPivot fr).cols = keyCols ++ pivotSides fr from rfl]
    simp [List.mem_append, h1, h2]
  simp [hasCol, this]

theorem dropna_mkPivot {fr : Frame} (h : ValidRaw fr = true) :
    dropnaOn (mkPivot fr) keyCols = mkPivot fr := by
  have hall : ∀ rr ∈ (mkPivot fr).rows,
      rowCompleteOn (mkPivot fr).cols keyCols rr = true := by
    intro rr hrr
    obtain ⟨k, hk, hkr⟩ := mkPivot_rows_shape fr rr hrr
    obtain ⟨n, x2, x3, x4, x5, hksh, ht, ha, hs, he⟩ := pivotKeys_shape h k hk
    subst hkr hksh
    rw [show (mkPivot fr).cols = keyCols ++ pivotSides fr from rfl]
    simp [rowCompleteOn, keyCols, getCell, ht, ha, hs, he]
  cases hmk : mkPivot fr with
  | mk cols rows =>
    simp only [dropnaOn]
    refine congrArg (Frame.mk cols) ?_
    refine List.filter_eq_self.mpr (fun rr hrr => ?_)
    have := hall rr (by rw [hmk]; exact hrr)
    rwa [hmk] at this

theorem calculate_mni_mkPivot (tbl : List (String × Cell)) {fr : Frame}
    (h : ValidRaw fr = true) :
    calculate_mni tbl (mkPivot fr) = Except.ok (sharedTail tbl (mkPivot fr)) := by
  have hhas : hasCol (mkPivot fr) "TransectUID" = true := by
    simp [hasCol, mkPivot, keyCols]
  have hco := coerceTuid_mkPivot h
  have hnt := needsTaxon_mkPivot h
  have hrecon : reconTaxon (mkPivot fr) = Except.ok (mkPivot fr) := by
    simp [reconTaxon, hnt]
  have hside := hasCol_mkPivot_side h
  have hmiss : keyCols.filter (fun c => !(hasCol (mkPivot fr) c)) = [] := by
    refine List.filter_eq_nil_iff.mpr (fun c hc => ?_)
    have hmem : c ∈ (mkPivot fr).cols := by
      rw [show (mkPivot fr).cols = keyCols ++ pivotSides fr from rfl]
      exact List.mem_append_left _ hc
    simp [hasCol, hmem]
  have hdrop := dropna_mkPivot h
  simp [calculate_mni, hhas, hrecon, hside, hmiss, sortBy, hdrop, hco]

/-! ### The claims -/

/-- C1: for every valid raw-shape input table (the five key columns plus
a side column, rows aligned with the columns, integer transect
identifiers, non-null key and side cells, side values not colliding with
the reserved column names), `calculate_mni` returns the same
transect-to-MNI table as `calculate_mni` applied to the equivalent
pre-pivoted version of the same data — the table counting occurrences
per side for each five-key combination, with no side column. -/
theorem c1_shape_invariance (tbl : List (String × Cell)) (fr : Frame)
    (h : ValidRaw fr = true) :
    calculate_mni tbl fr = calculate_mni tbl (prepivotSpec fr) := by
  rw [calculate_mni_validRaw tbl h, prepivotSpec_validRaw h,
    calculate_mni_mkPivot tbl h]

/-- Witness for C1 at a concrete valid raw table. -/
theorem c1_shape_invariance_witness :
    ValidRaw sampleRaw = true ∧
    calculate_mni [] sampleRaw = calculate_mni [] (prepivotSpec sampleRaw) :=
  ⟨by decide, c1_shape_invariance [] sampleRaw (by decide)⟩

/-! ### Characterisation of the aggregation stage -/

theorem find?_map_rows (f : Cell → List Cell) (t0 : Cell) :
    ∀ (ts : List Cell), (∀ t ∈ ts, (f t).headD Cell.na = t) → ts.Nodup →
    (ts.map f).find? (fun r => r.headD Cell.na = t0) =
      if t0 ∈ ts then some (f t0) else none := by
  intro ts
  induction ts with
  | nil => simp
  | cons a ts ih =>
    intro hhead hnd
    by_cases h : (f a).headD Cell.na = t0
    · have ha : a = t0 := (hhead a (by simp)).symm.trans h
      subst ha
      rw [List.map_cons, List.find?_cons_of_pos _ (by simpa using h)]
      simp
    · have hne : ¬ t0 = a := fun hc => h (hc ▸ hhead a (by simp))
      rw [List.map_cons, List.find?_cons_of_neg _ (by simpa using h)]
      rw [ih (fun t htm => hhead t (by simp [htm])) (List.nodup_cons.mp hnd).2]
      by_cases hm : t0 ∈ ts
      · rw [if_pos hm, if_pos (by simp [hm])]
      · rw [if_neg hm, if_neg (by simp [List.mem_cons, hm, hne])]

theorem mem_aggKeys {pv : Frame} {k : List Cell} :
    k ∈ aggKeys pv ↔
      k ∈ (pv.rows.map (key4Of pv.cols)).filter
        (fun k => !(k.contains Cell.na)) := by
  rw [aggKeys, mem_sortBy, List.mem_dedup]

theorem aggKeys_nodup (pv : Frame) : (aggKeys pv).Nodup :=
  ((sortBy_perm _ _).nodup_iff).mpr (List.nodup_dedup _)

theorem aggTuids_nodup (pv : Frame) : (aggTuids pv).Nodup :=
  ((sortBy_perm _ _).nodup_iff).mpr (List.nodup_dedup _)

theorem mem_aggTuids_iff (pv : Frame) (m : Int) :
    (Cell.int m ∈ aggTuids pv) ↔ hasTransect pv (Cell.int m) = true := by
  rw [aggTuids, mem_sortBy, List.mem_dedup, List.mem_filter, hasTransect,
    List.any_eq_true]
  constructor
  · rintro ⟨hmap, -⟩
    obtain ⟨k, hk, hhead⟩ := List.mem_map.mp hmap
    obtain ⟨r, hr, hkey⟩ := List.mem_map.mp (List.mem_filter.mp
      (mem_aggKeys.mp hk)).1
    refine ⟨r, hr, ?_⟩
    have hcna := (List.mem_filter.mp (mem_aggKeys.mp hk)).2
    rw [hkey, Bool.and_eq_true]
    exact ⟨hcna, by simpa [List.headD] using hhead⟩
  · rintro ⟨r, hr, hp⟩
    simp only [Bool.and_eq_true, decide_eq_true_eq] at hp
    refine ⟨List.mem_map.mpr ⟨key4Of pv.cols r, ?_, hp.2⟩, by simp⟩
    exact mem_aggKeys.mpr (List.mem_filter.mpr
      ⟨List.mem_map.mpr ⟨r, hr, rfl⟩, hp.1⟩)

theorem transectSum_eq_spec (pv : Frame) (t : Cell) :
    transectSum pv t = transectMniSpec pv t := by
  rw [transectSum, transectMniSpec]
  simp only [groupMax, mniRowVal]
  refine List.Perm.sum_eq (List.Perm.map _ ?_)
  rw [dedup_filter]
  exact (sortBy_perm _ _).filter _

theorem aggTuids_int {pv : Frame}
    (ht : ∀ r ∈ pv.rows, toNumeric (getCell pv.cols r "TransectUID") =
          getCell pv.cols r "TransectUID") :
    ∀ t ∈ aggTuids pv, toNumeric t = t := by
  intro t htm
  rw [aggTuids, mem_sortBy, List.mem_dedup, List.mem_filter] at htm
  obtain ⟨hmap, hnna⟩ := htm
  obtain ⟨k, hk, hhead⟩ := List.mem_map.mp hmap
  obtain ⟨r, hr, hkey⟩ :=
    List.mem_map.mp (List.mem_filter.mp (mem_aggKeys.mp hk)).1
  have hh : k.headD Cell.na = getCell pv.cols r "TransectUID" := by
    rw [← hkey]; simp [key4Of]
  rw [← hhead, hh]
  exact ht r hr

theorem aggregate_outMni_aux (pv : Frame) (m : Int)
    (ht : ∀ r ∈ pv.rows, toNumeric (getCell pv.cols r "TransectUID") =
          getCell pv.cols r "TransectUID") :
    outMni (aggregate pv) (Cell.int m) =
      if hasTransect pv (Cell.int m) = true then
        some (Cell.int (transectMniSpec pv (Cell.int m))) else none := by
  have hid := aggTuids_int ht
  have hnd := aggTuids_nodup pv
  rw [outMni]
  rw [show (aggregate pv).rows = (aggTuids pv).map
      (fun t => [toNumeric t, Cell.int (transectSum pv t)]) from rfl]
  rw [find?_map_rows _ _ _ (fun t htm => by simp [hid t htm]) hnd]
  by_cases hmem : Cell.int m ∈ aggTuids pv
  · rw [if_pos hmem, if_pos ((mem_aggTuids_iff pv m).mp hmem)]
    simp [transectSum_eq_spec]
  · rw [if_neg hmem, if_neg (fun hc => hmem ((mem_aggTuids_iff pv m).mpr hc))]
    rfl

/-- C2: in `calculate_mni`'s aggregation, each pivoted row contributes
`element_mni` = the maximum across its side-count columns; each complete
(transect, taxon, age, sex) group contributes the maximum `element_mni`
of its rows; and the MNI reported for a transect is the sum of these
per-group maxima — summation happens only at this last level.  Stated
as: for any pivot-form frame whose transect cells are numerically
stable, the MNI paired with transect `m` in the aggregated output
equals the direct specification formula `transectMniSpec`, and a
transect with no complete group is absent from the output. -/
theorem c2_aggregation_levels (pv : Frame) (m : Int)
    (ht : ∀ r ∈ pv.rows, toNumeric (getCell pv.cols r "TransectUID") =
          getCell pv.cols r "TransectUID") :
    outMni (aggregate pv) (Cell.int m) =
      if hasTransect pv (Cell.int m) = true then
        some (Cell.int (transectMniSpec pv (Cell.int m))) else none :=
  aggregate_outMni_aux pv m ht

/-- Witness for C2 on a concrete pivoted table. -/
theorem c2_aggregation_levels_witness :
    (∀ r ∈ samplePivot.rows,
      toNumeric (getCell samplePivot.cols r "TransectUID") =
        getCell samplePivot.cols r "TransectUID") ∧
    outMni (aggregate samplePivot) (Cell.int 1) =
      if hasTransect samplePivot (Cell.int 1) = true then
        some (Cell.int (transectMniSpec samplePivot (Cell.int 1))) else none :=
  ⟨by decide, c2_aggregation_levels samplePivot 1 (by decide)⟩

/-! ### Row-drop behaviour of the raw branch -/

theorem dropnaOn_cons_dropped {cols : List String} {row : List Cell}
    {rows : List (List Cell)} {subset : List String}
    (h : rowCompleteOn cols subset row = false) :
    dropnaOn ⟨cols, row :: rows⟩ subset = dropnaOn ⟨cols, rows⟩ subset := by
  simp [dropnaOn, List.filter_cons, h]

theorem mkPivot_cons_dropped {cols : List String} {row : List Cell}
    {rows : List (List Cell)}
    (h : (keyOf cols row).contains Cell.na = true ∨
         getCell cols row "Side" = Cell.na) :
    mkPivot ⟨cols, row :: rows⟩ = mkPivot ⟨cols, rows⟩ := by
  have hkept : pivotRowsKept ⟨cols, row :: rows⟩ = pivotRowsKept ⟨cols, rows⟩ := by
    simp only [pivotRowsKept]
    refine List.filter_cons_of_neg ?_
    intro hc
    simp only [Bool.and_eq_true] at hc
    rcases h with h | h
    · have h1 := hc.1
      rw [h] at h1
      simp at h1
    · have h2 := hc.2
      simp [h] at h2
  simp [mkPivot, pivotKeys, pivotSides, pivotCount, hkept]

theorem mni_drops_incomplete_raw (tbl : List (String × Cell))
    (cols : List String) (rows : List (List Cell)) (row : List Cell)
    (hSide : "Side" ∈ cols) (hTuid : "TransectUID" ∈ cols)
    (hTaxCol : "Taxon Label" ∈ cols)
    (hTax : ∀ r ∈ (row :: rows), ¬ getCell cols r "Taxon Label" = Cell.na)
    (hBad : toNumeric (getCell cols row "TransectUID") = Cell.na ∨
            getCell cols row "Pre: Age" = Cell.na ∨
            getCell cols row "Pre: Sex" = Cell.na ∨
            getCell cols row "Side" = Cell.na ∨
            getCell cols row "What element is this?" = Cell.na) :
    calculate_mni tbl ⟨cols, row :: rows⟩ = calculate_mni tbl ⟨cols, rows⟩ := by
  have hhasT1 : hasCol ⟨cols, row :: rows⟩ "TransectUID" = true := by
    simp [hasCol, hTuid]
  have hhasT2 : hasCol ⟨cols, rows⟩ "TransectUID" = true := by
    simp [hasCol, hTuid]
  have hco1 : coerceTuid ⟨cols, row :: rows⟩ =
      ⟨cols, mapColRow "TransectUID" toNumeric cols row ::
        rows.map (mapColRow "TransectUID" toNumeric cols)⟩ := by
    simp [coerceTuid]
  have hco2 : coerceTuid ⟨cols, rows⟩ =
      ⟨cols, rows.map (mapColRow "TransectUID" toNumeric cols)⟩ := by
    simp [coerceTuid]
  have htaxc : ∀ r ∈ (mapColRow "TransectUID" toNumeric cols row ::
      rows.map (mapColRow "TransectUID" toNumeric cols)),
      ¬ getCell cols r "Taxon Label" = Cell.na := by
    intro r hr
    rcases List.mem_cons.mp hr with rfl | hr2
    · rw [getCell_mapColRow_ne _ _ _ (by decide)]
      exact hTax row (by simp)
    · obtain ⟨r0, hr0, rfl⟩ := List.mem_map.mp hr2
      rw [getCell_mapColRow_ne _ _ _ (by decide)]
      exact hTax r0 (by simp [hr0])
  have hnt1 : needsTaxon ⟨cols, mapColRow "TransectUID" toNumeric cols row ::
      rows.map (mapColRow "TransectUID" toNumeric cols)⟩ = false := by
    have hna : Cell.na ∉ colCells ⟨cols,
        mapColRow "TransectUID" toNumeric cols row ::
        rows.map (mapColRow "TransectUID" toNumeric cols)⟩ "Taxon Label" := by
      intro hm
      obtain ⟨r, hr, hg⟩ := List.mem_map.mp hm
      exact htaxc r hr hg
    simp [needsTaxon, hasCol, hTaxCol, hna]
  have hnt2 : needsTaxon ⟨cols,
      rows.map (mapColRow "TransectUID" toNumeric cols)⟩ = false := by
    have hna : Cell.na ∉ colCells ⟨cols,
        rows.map (mapColRow "TransectUID" toNumeric cols)⟩ "Taxon Label" := by
      intro hm
      obtain ⟨r, hr, hg⟩ := List.mem_map.mp hm
      exact htaxc r (by simp [hr]) hg
    simp [needsTaxon, hasCol, hTaxCol, hna]
  have hrec1 : reconTaxon ⟨cols, mapColRow "TransectUID" toNumeric cols row ::
      rows.map (mapColRow "TransectUID" toNumeric cols)⟩ =
      Except.ok ⟨cols, mapColRow "TransectUID" toNumeric cols row ::
        rows.map (mapColRow "TransectUID" toNumeric cols)⟩ := by
    simp [reconTaxon, hnt1]
  have hrec2 : reconTaxon ⟨cols,
      rows.map (mapColRow "TransectUID" toNumeric cols)⟩ =
      Except.ok ⟨cols, rows.map (mapColRow "TransectUID" toNumeric cols)⟩ := by
    simp [reconTaxon, hnt2]
  have hhasS : ∀ (rs : List (List Cell)),
      hasCol ⟨cols, rs⟩ "Side" = true := fun rs => by simp [hasCol, hSide]
  have hT : cols.contains "TransectUID" = true := by simp [hTuid]
  have hS : cols.contains "Side" = true := by simp [hSide]
  simp only [calculate_mni, hco1, hco2, hrec1, hrec2, hasCol, hT, hS,
    Bool.not_true, Bool.false_eq_true, if_false, if_true]
  by_cases hmiss : sortBy strLe (List.filter (fun c => !cols.contains c)
      (keyCols ++ ["Side"])) = []
  · have hcond : (!decide (sortBy strLe (List.filter
        (fun c => !cols.contains c) (keyCols ++ ["Side"])) = [])) = false := by
      rw [hmiss]
      simp
    rw [hcond]
    simp only [Bool.false_eq_true, if_false]
    refine congrArg Except.ok (congrArg (sharedTail tbl) ?_)
    by_cases hcomp : rowCompleteOn cols
        ["TransectUID", "Taxon Label", "Pre: Age", "Pre: Sex", "Side"]
        (mapColRow "TransectUID" toNumeric cols row) = true
    · -- the row survives the dropna, so its null must be the element
      -- name, and the pivot groupby then drops it
      have helem : getCell cols row "What element is this?" = Cell.na := by
        simp only [rowCompleteOn, List.all_cons, List.all_nil,
          Bool.and_eq_true, Bool.and_true, Bool.not_eq_eq_eq_not,
          Bool.not_true, decide_eq_false_iff_not] at hcomp
        rcases hBad with hb | hb | hb | hb | hb
        · exact absurd (by
            rw [getCell_mapColRow_self "TransectUID" toNumeric rfl cols row]
            exact hb) hcomp.1
        · exact absurd (by
            rw [getCell_mapColRow_ne _ _ _ (by decide)]
            exact hb) hcomp.2.2.1
        · exact absurd (by
            rw [getCell_mapColRow_ne _ _ _ (by decide)]
            exact hb) hcomp.2.2.2.1
        · exact absurd (by
            rw [getCell_mapColRow_ne _ _ _ (by decide)]
            exact hb) hcomp.2.2.2.2
        · exact hb
      have hdrop1 : dropnaOn ⟨cols, mapColRow "TransectUID" toNumeric cols row ::
          rows.map (mapColRow "TransectUID" toNumeric cols)⟩
          ["TransectUID", "Taxon Label", "Pre: Age", "Pre: Sex", "Side"] =
          ⟨cols, mapColRow "TransectUID" toNumeric cols row ::
            (rows.map (mapColRow "TransectUID" toNumeric cols)).filter
              (rowCompleteOn cols
                ["TransectUID", "Taxon Label", "Pre: Age", "Pre: Sex", "Side"])⟩ := by
        simp only [dropnaOn]
        exact congrArg (Frame.mk cols) (List.filter_cons_of_pos hcomp)
      have hdrop2 : dropnaOn ⟨cols,
          rows.map (mapColRow "TransectUID" toNumeric cols)⟩
          ["TransectUID", "Taxon Label", "Pre: Age", "Pre: Sex", "Side"] =
          ⟨cols, (rows.map (mapColRow "TransectUID" toNumeric cols)).filter
            (rowCompleteOn cols
              ["TransectUID", "Taxon Label", "Pre: Age", "Pre: Sex", "Side"])⟩ := by
        simp only [dropnaOn]
      rw [hdrop1, hdrop2]
      refine mkPivot_cons_dropped (Or.inl ?_)
      have he2 : getCell cols (mapColRow "TransectUID" toNumeric cols row)
          "What element is this?" = Cell.na := by
        rw [getCell_mapColRow_ne _ _ _ (by decide)]
        exact helem
      simp [keyOf, keyCols, he2]
    · rw [dropnaOn_cons_dropped (Bool.not_eq_true _ ▸ hcomp)]
  · have hcond : (!decide (sortBy strLe (List.filter
        (fun c => !cols.contains c) (keyCols ++ ["Side"])) = [])) = true := by
      rw [decide_eq_false hmiss]
      rfl
    rw [hcond]
    simp only [if_true]

/-- C3 counterexample: the claim says a null side value never causes a
raw-shape row to be dropped and that a missing element name never causes
a drop either (being renamed "teeth" instead).  On the code, the one-row
raw table whose only null is its `Side` cell produces an empty output
(the row is dropped by the completeness filter, first conjunct), and the
one-row raw table whose only null is its element cell also produces an
empty output (the row is excluded by the pivot grouping, never renamed,
third conjunct) — while the identical complete row is kept (second
conjunct) and rows with merely blank element names are kept and counted
(fourth conjunct). -/
theorem c3_counterexample :
    calculate_mni [] rawNullSide = Except.ok ⟨["TransectUID", "MNI"], []⟩ ∧
    calculate_mni [] rawWithSide =
      Except.ok ⟨["TransectUID", "MNI"], [[Cell.int 1, Cell.int 1]]⟩ ∧
    calculate_mni [] rawNullElem =
      Except.ok ⟨["TransectUID", "MNI"], []⟩ ∧
    calculate_mni [] rawBlankElem =
      Except.ok ⟨["TransectUID", "MNI"], [[Cell.int 1, Cell.int 2]]⟩ := by
  refine ⟨by decide, by decide, by decide, by decide⟩

/-- C3 amended: in raw shape the completeness filter drops the rows with
a null among transect id (after numeric coercion), age, sex **or side**
— side is not exempt — and a null element name also drops the row (at
the pivot grouping) instead of being renamed; deleting such a row from
the input leaves the result unchanged (stated for inputs whose taxon
labels are present and non-null, so that no reconstruction interferes).
A blank, whitespace-only element name is not dropped: it is renamed to
"teeth" before count correction, as the closed conjunct shows — the
blank-element occurrence count 2 is divided by the "teeth" divisor 2,
giving MNI 1. -/
theorem c3_amended (tbl : List (String × Cell)) (cols : List String)
    (rows : List (List Cell)) (row : List Cell)
    (hSide : "Side" ∈ cols) (hTuid : "TransectUID" ∈ cols)
    (hTaxCol : "Taxon Label" ∈ cols)
    (hTax : ∀ r ∈ (row :: rows), ¬ getCell cols r "Taxon Label" = Cell.na)
    (hBad : toNumeric (getCell cols row "TransectUID") = Cell.na ∨
            getCell cols row "Pre: Age" = Cell.na ∨
            getCell cols row "Pre: Sex" = Cell.na ∨
            getCell cols row "Side" = Cell.na ∨
            getCell cols row "What element is this?" = Cell.na) :
    calculate_mni tbl ⟨cols, row :: rows⟩ = calculate_mni tbl ⟨cols, rows⟩ ∧
    calculate_mni [("teeth", Cell.int 2)] rawBlankElem =
      Except.ok ⟨["TransectUID", "MNI"], [[Cell.int 1, Cell.int 1]]⟩ :=
  ⟨mni_drops_incomplete_raw tbl cols rows row hSide hTuid hTaxCol hTax hBad,
   by decide⟩

/-- Witness for C3 (amended) at a concrete one-row table whose side is
null. -/
theorem c3_amended_witness :
    (getCell ["TransectUID", "Taxon Label", "Pre: Age", "Pre: Sex",
        "What element is this?", "Side"]
      [Cell.int 9, Cell.str "eland", Cell.str "adult", Cell.str "f",
        Cell.str "rib", Cell.na] "Side" = Cell.na) ∧
    calculate_mni [] ⟨["TransectUID", "Taxon Label", "Pre: Age", "Pre: Sex",
        "What element is this?", "Side"],
      [[Cell.int 9, Cell.str "eland", Cell.str "adult", Cell.str "f",
        Cell.str "rib", Cell.na]]⟩ =
      calculate_mni [] ⟨["TransectUID", "Taxon Label", "Pre: Age", "Pre: Sex",
        "What element is this?", "Side"], []⟩ :=
  ⟨by decide,
   (c3_amended []
     ["TransectUID", "Taxon Label", "Pre: Age", "Pre: Sex",
      "What element is this?", "Side"]
     []
     [Cell.int 9, Cell.str "eland", Cell.str "adult", Cell.str "f",
      Cell.str "rib", Cell.na]
     (by decide) (by decide) (by decide) (by decide)
     (Or.inr (Or.inr (Or.inr (Or.inl (by decide)))))).1⟩

/-! ### The taxon-reconstruction failure mode -/

theorem map_congr_fn {α β : Type} (f g : α → β) (l : List α)
    (h : ∀ a ∈ l, f a = g a) : l.map f = l.map g := by
  induction l with
  | nil => rfl
  | cons a l ih => simp [h a (by simp), ih (fun x hx => h x (by simp [hx]))]

theorem colCells_coerce_taxon (df : Frame) :
    colCells (coerceTuid df) "Taxon Label" = colCells df "Taxon Label" := by
  simp only [colCells, coerceTuid, List.map_map]
  exact map_congr_fn _ _ _ (fun r _ =>
    getCell_mapColRow_ne _ _ _ (by decide) df.cols r)

theorem after_recon_not_taxon_error (tbl : List (String × Cell))
    (df df2 : Frame) (h : hasCol df "TransectUID" = true)
    (hrec : reconTaxon (coerceTuid df) = Except.ok df2) :
    ¬ calculate_mni tbl df = Except.error MniError.noTaxonAlternatives := by
  intro heq
  simp only [calculate_mni, h, Bool.not_true, Bool.false_eq_true, if_false,
    hrec] at heq
  by_cases hs : hasCol df2 "Side" = true <;>
    simp only [hs, if_true, Bool.false_eq_true, if_false] at heq <;>
    split at heq <;> simp at heq

/-- C4 counterexample: the claim says a present-but-partially-null taxon
label with no alternative columns is accepted; on the code, such an
input raises the reconstruction error instead of being row-dropped. -/
theorem c4_counterexample :
    calculate_mni [] pivotNullTaxon =
      Except.error MniError.noTaxonAlternatives := by decide

/-- C4 amended: `calculate_mni` raises the taxon reconstruction error
exactly when the taxon-label column is absent **or contains any null**
and neither alternative taxon column exists; the partially-null case is
an error, not a row-drop.  (In particular, with the column present and
fully non-null no such error is raised.) -/
theorem c4_amended (tbl : List (String × Cell)) (df : Frame)
    (h : hasCol df "TransectUID" = true) :
    calculate_mni tbl df = Except.error MniError.noTaxonAlternatives ↔
      ((¬ hasCol df "Taxon Label" = true ∨
        Cell.na ∈ colCells df "Taxon Label") ∧
       ¬ hasCol df "Post: Taxon Guess?" = true ∧
       ¬ hasCol df "Pre: Taxon" = true) := by
  have hhas : ∀ c, hasCol (coerceTuid df) c = hasCol df c := fun c => by
    simp [hasCol, coerceTuid]
  have hnt : needsTaxon (coerceTuid df) = true ↔
      (¬ hasCol df "Taxon Label" = true ∨
       Cell.na ∈ colCells df "Taxon Label") := by
    simp [needsTaxon, hhas, colCells_coerce_taxon df]
  have halt : altTaxonCols.filter (hasCol (coerceTuid df)) = [] ↔
      (¬ hasCol df "Post: Taxon Guess?" = true ∧
       ¬ hasCol df "Pre: Taxon" = true) := by
    constructor
    · intro hf
      by_cases h1 : hasCol df "Post: Taxon Guess?" = true <;>
        by_cases h2 : hasCol df "Pre: Taxon" = true <;>
          simp [altTaxonCols, List.filter_cons, h1, h2, hhas] at hf ⊢
    · rintro ⟨h1, h2⟩
      simp [altTaxonCols, List.filter_cons, h1, h2, hhas]
  constructor
  · intro heq
    by_cases hn : needsTaxon (coerceTuid df) = true
    · by_cases ha : altTaxonCols.filter (hasCol (coerceTuid df)) = []
      · exact ⟨hnt.mp hn, halt.mp ha⟩
      · exact absurd heq (after_recon_not_taxon_error tbl df
          (dropCols (List.foldl fillTaxonFrom
            (if hasCol (coerceTuid df) "Taxon Label" = true then coerceTuid df
             else addCol (coerceTuid df) "Taxon Label" Cell.na)
            (altTaxonCols.filter (hasCol (coerceTuid df))))
            (altTaxonCols.filter (hasCol (coerceTuid df)))) h
          (by simp only [reconTaxon, hn, if_true, if_neg ha]))
    · exact absurd heq (after_recon_not_taxon_error tbl df (coerceTuid df) h
        (by simp [reconTaxon, hn]))
  · rintro ⟨h1, h2⟩
    have hn : needsTaxon (coerceTuid df) = true := hnt.mpr h1
    have ha : altTaxonCols.filter (hasCol (coerceTuid df)) = [] := halt.mpr h2
    have hrec : reconTaxon (coerceTuid df) =
        Except.error MniError.noTaxonAlternatives := by
      simp [reconTaxon, hn, ha]
    simp [calculate_mni, h, hrec]

/-- Witness for C4 (amended) at a concrete table with a null taxon cell
and no alternative columns. -/
theorem c4_amended_witness :
    hasCol pivotBareNullTaxon "TransectUID" = true ∧
    (calculate_mni [] pivotBareNullTaxon =
        Except.error MniError.noTaxonAlternatives ↔
      ((¬ hasCol pivotBareNullTaxon "Taxon Label" = true ∨
        Cell.na ∈ colCells pivotBareNullTaxon "Taxon Label") ∧
       ¬ hasCol pivotBareNullTaxon "Post: Taxon Guess?" = true ∧
       ¬ hasCol pivotBareNullTaxon "Pre: Taxon" = true)) :=
  ⟨by decide, c4_amended [] pivotBareNullTaxon (by decide)⟩

/-! ### Row-wise view of the count-correction block -/

theorem applyDivisorEntry_rows (fr : Frame) (p : String × Cell) :
    applyDivisorEntry fr p = ⟨fr.cols, fr.rows.map (divEntryRow fr.cols p)⟩ := by
  cases hdv : divisorVal p.2 with
  | none =>
    have hmap : fr.rows.map (divEntryRow fr.cols p) = fr.rows :=
      map_eq_self _ _ (fun r _ => by simp [divEntryRow, hdv])
    simp only [applyDivisorEntry, hdv]
    rw [hmap]
  | some d => simp [applyDivisorEntry, divEntryRow, hdv]

theorem applyDivisors_rows (tbl : List (String × Cell)) (fr : Frame) :
    applyDivisors tbl fr = ⟨fr.cols, fr.rows.map (divRowAll tbl fr.cols)⟩ := by
  induction tbl generalizing fr with
  | nil =>
    have hmap : fr.rows.map (divRowAll [] fr.cols) = fr.rows :=
      map_eq_self _ _ (fun r _ => rfl)
    simp only [applyDivisors, List.foldl_nil]
    rw [hmap]
  | cons p tbl ih =>
    have h1 : applyDivisors (p :: tbl) fr =
        applyDivisors tbl (applyDivisorEntry fr p) := rfl
    rw [h1, ih, applyDivisorEntry_rows]
    simp only [List.map_map]
    rfl

theorem correctCounts_rows (tbl : List (String × Cell)) (fr : Frame)
    (hsc : ¬ sideColsOf fr.cols = []) :
    correctCounts tbl fr = ⟨fr.cols, fr.rows.map (fun r =>
      divRowAll tbl fr.cols
        (if elemMatches fr.cols r "bone nonidentifiable"
         then mapNonKey fr.cols (fun _ => Cell.int 1) r else r))⟩ := by
  rw [correctCounts, if_neg hsc]
  have h1 : forceNonident fr = ⟨fr.cols, fr.rows.map (fun r =>
      if elemMatches fr.cols r "bone nonidentifiable"
      then mapNonKey fr.cols (fun _ => Cell.int 1) r else r)⟩ := rfl
  rw [h1, applyDivisors_rows]
  simp [List.map_map]

theorem divRowAll_no_match (tbl : List (String × Cell)) (cols : List String)
    (r : List Cell)
    (h : ∀ p ∈ tbl, elemMatches cols r (lowerStr (trimStr p.1)) = false) :
    divRowAll tbl cols r = r := by
  induction tbl with
  | nil => rfl
  | cons p tbl ih =>
    have h1 : divRowAll (p :: tbl) cols r =
        divRowAll tbl cols (divEntryRow cols p r) := rfl
    have h2 : divEntryRow cols p r = r := by
      rw [divEntryRow]
      cases divisorVal p.2 with
      | none => rfl
      | some d => simp [h p (by simp)]
    rw [h1, h2]
    exact ih (fun q hq => h q (by simp [hq]))

theorem elementMni_const_one (cells : List Cell)
    (h : ∀ c ∈ cells, c = Cell.int 1) (hne : ¬ cells = []) :
    elementMni cells = some 1 := by
  rw [elementMni]
  refine maxList_all_one _ ?_ ?_
  · intro x hx
    obtain ⟨c, hc, hcx⟩ := List.mem_filterMap.mp hx
    rw [h c hc] at hcx
    simpa [cellInt] using hcx.symm
  · cases cells with
    | nil => exact absurd rfl hne
    | cons c cs =>
      have : c = Cell.int 1 := h c (by simp)
      simp [this, cellInt, List.filterMap_cons]

/-- C5: a pivoted row whose element name equals "bone nonidentifiable"
case-insensitively has every side-count cell forced to exactly 1
*before* the divisor loop runs (the correction block applies the divisor
loop to the already-forced row); when no divisor-table entry matches
that name, the forced counts survive and the row's `element_mni` is 1.
Concretely, the mixed-case row with side counts {left: 4, right: 0}
yields MNI 1, not 4. -/
theorem c5_nonidentifiable (tbl : List (String × Cell)) (fr : Frame)
    (r : List Cell)
    (hsc : ¬ sideColsOf fr.cols = [])
    (hlen : r.length = fr.cols.length)
    (helem : elemMatches fr.cols r "bone nonidentifiable" = true)
    (htbl : ∀ p ∈ tbl, ¬ lowerStr (trimStr p.1) = "bone nonidentifiable") :
    (correctCounts tbl fr).rows = fr.rows.map (fun r =>
      divRowAll tbl fr.cols
        (if elemMatches fr.cols r "bone nonidentifiable"
         then mapNonKey fr.cols (fun _ => Cell.int 1) r else r)) ∧
    (∀ c ∈ sideColsOf fr.cols,
      getCell fr.cols (divRowAll tbl fr.cols
        (mapNonKey fr.cols (fun _ => Cell.int 1) r)) c = Cell.int 1) ∧
    elementMni ((sideColsOf fr.cols).map (getCell fr.cols
      (divRowAll tbl fr.cols
        (mapNonKey fr.cols (fun _ => Cell.int 1) r)))) = some 1 ∧
    calculate_mni [] pivotNonident =
      Except.ok ⟨["TransectUID", "MNI"], [[Cell.int 1, Cell.int 1]]⟩ := by
  have hforce_elem : getCell fr.cols
      (mapNonKey fr.cols (fun _ => Cell.int 1) r) "What element is this?" =
      getCell fr.cols r "What element is this?" :=
    getCell_mapNonKey_key _ _ (by simp [keyCols]) _ _
  obtain ⟨s, hs, hlow⟩ : ∃ s, getCell fr.cols r "What element is this?" =
      Cell.str s ∧ lowerStr s = "bone nonidentifiable" := by
    cases hcell : getCell fr.cols r "What element is this?" with
    | str s =>
      refine ⟨s, rfl, ?_⟩
      simpa [elemMatches, hcell] using helem
    | na => simp [elemMatches, hcell] at helem
    | int n => simp [elemMatches, hcell] at helem
  have hnm : ∀ p ∈ tbl, elemMatches fr.cols
      (mapNonKey fr.cols (fun _ => Cell.int 1) r)
      (lowerStr (trimStr p.1)) = false := by
    intro p hp
    have hmatch : elemMatches fr.cols
        (mapNonKey fr.cols (fun _ => Cell.int 1) r)
        (lowerStr (trimStr p.1)) =
        decide (lowerStr s = lowerStr (trimStr p.1)) := by
      rw [elemMatches.eq_def, hforce_elem, hs]
    rw [hmatch, hlow]
    exact decide_eq_false (fun hc => htbl p hp hc.symm)
  have hskip : divRowAll tbl fr.cols
      (mapNonKey fr.cols (fun _ => Cell.int 1) r) =
      mapNonKey fr.cols (fun _ => Cell.int 1) r :=
    divRowAll_no_match tbl fr.cols _ hnm
  have hones : ∀ c ∈ sideColsOf fr.cols,
      getCell fr.cols (divRowAll tbl fr.cols
        (mapNonKey fr.cols (fun _ => Cell.int 1) r)) c = Cell.int 1 := by
    intro c hc
    rw [hskip]
    obtain ⟨hcin, hcnk⟩ := List.mem_filter.mp hc
    rw [getCell_mapNonKey_side c _ (by simpa using hcnk) fr.cols r hcin hlen]
  refine ⟨congrArg Frame.rows (correctCounts_rows tbl fr hsc), hones, ?_,
    by decide⟩
  refine elementMni_const_one _ ?_ ?_
  · intro c hcm
    obtain ⟨c0, hc0, hc0c⟩ := List.mem_map.mp hcm
    rw [← hc0c]
    exact hones c0 hc0
  · simpa using hsc

/-- Witness for C5 at the concrete mixed-case nonidentifiable row. -/
theorem c5_nonidentifiable_witness :
    (¬ sideColsOf pivotNonident.cols = []) ∧
    elementMni ((sideColsOf pivotNonident.cols).map
      (getCell pivotNonident.cols
        (divRowAll [("femur", Cell.int 2)] pivotNonident.cols
          (mapNonKey pivotNonident.cols (fun _ => Cell.int 1)
            [Cell.int 1, Cell.str "zebra", Cell.str "adult", Cell.str "m",
             Cell.str "Bone Nonidentifiable", Cell.int 4,
             Cell.int 0])))) = some 1 :=
  ⟨by decide,
   (c5_nonidentifiable [("femur", Cell.int 2)] pivotNonident
     [Cell.int 1, Cell.str "zebra", Cell.str "adult", Cell.str "m",
      Cell.str "Bone Nonidentifiable", Cell.int 4, Cell.int 0]
     (by decide) (by decide) (by decide) (by decide)).2.2.1⟩

/-! ### The ceiling division of the divisor correction -/

theorem intCeilDiv_eq_spec (c d : Int) (hd : 0 < d) :
    intCeilDiv c d = ceilQuotSpec c d := by
  rw [intCeilDiv, if_pos hd, ceilQuotSpec]
  have hdne : d ≠ 0 := ne_of_gt hd
  have e1 := Int.ediv_add_emod (c + d - 1) d
  have e2 := Int.ediv_add_emod (-c) d
  have hr1 := Int.emod_nonneg (c + d - 1) hdne
  have hr2 := Int.emod_lt_of_pos (c + d - 1) hd
  have hr3 := Int.emod_nonneg (-c) hdne
  have hr4 := Int.emod_lt_of_pos (-c) hd
  set q := (c + d - 1) / d with hq
  set q2 := (-c) / d with hq2
  have hsum : d * (q + q2) = d - 1 - (c + d - 1) % d - (-c) % d := by
    rw [mul_add]; linarith
  have hk : q + q2 = 0 := by
    by_contra hne
    rcases lt_or_gt_of_ne hne with hlt | hgt
    · have h1 : q + q2 ≤ -1 := by omega
      have h2 : d * (q + q2) ≤ d * (-1) :=
        mul_le_mul_of_nonneg_left h1 (le_of_lt hd)
      linarith
    · have h1 : 1 ≤ q + q2 := by omega
      have h2 : d * 1 ≤ d * (q + q2) :=
        mul_le_mul_of_nonneg_left h1 (le_of_lt hd)
      linarith
  have ha : (-c).ediv d = q2 := rfl
  have hb : (c + d - 1).ediv d = q := rfl
  rw [ha, hb]
  linarith

/-- Computation rule for `divRowAll` with one valid matching entry. -/
theorem divRowAll_single (cols : List String) (r : List Cell) (e : String)
    (d : Int) (hd : ¬ d = 0)
    (hm : elemMatches cols r (lowerStr (trimStr e)) = true) :
    divRowAll [(e, Cell.int d)] cols r = mapNonKey cols (ceilDivCell d) r := by
  have h1 : divRowAll [(e, Cell.int d)] cols r =
      divEntryRow cols (e, Cell.int d) r := rfl
  rw [h1, divEntryRow]
  simp [divisorVal, toNumeric, hd, hm]

/-- C6: the divisor loop replaces each integer side count `c` of a row
whose element name matches a table entry with positive numeric divisor
`d` by the integer ceiling of `c / d` (so count 5 with divisor 2 becomes
3, as the closed conjunct computes through the whole pipeline); entries
whose divisor is non-numeric or zero are skipped entirely, and a row
matching no entry is left unchanged. -/
theorem c6_divisor_correction :
    (∀ (c d : Int), 0 < d →
      ceilDivCell d (Cell.int c) = Cell.int (ceilQuotSpec c d)) ∧
    (∀ (fr : Frame) (e : String) (dcell : Cell), toNumeric dcell = Cell.na →
      applyDivisorEntry fr (e, dcell) = fr) ∧
    (∀ (fr : Frame) (e : String) (dcell : Cell), toNumeric dcell = Cell.int 0 →
      applyDivisorEntry fr (e, dcell) = fr) ∧
    (∀ (tbl : List (String × Cell)) (cols : List String) (r : List Cell),
      (∀ p ∈ tbl, elemMatches cols r (lowerStr (trimStr p.1)) = false) →
      divRowAll tbl cols r = r) ∧
    (∀ (cols : List String) (r : List Cell) (e : String) (d : Int)
      (c : String) (n : Int), 0 < d →
      elemMatches cols r (lowerStr (trimStr e)) = true →
      c ∈ sideColsOf cols → r.length = cols.length →
      getCell cols r c = Cell.int n →
      getCell cols (divRowAll [(e, Cell.int d)] cols r) c =
        Cell.int (ceilQuotSpec n d)) ∧
    calculate_mni [("Tooth", Cell.int 2)] pivotTooth =
      Except.ok ⟨["TransectUID", "MNI"], [[Cell.int 3, Cell.int 3]]⟩ := by
  refine ⟨?_, ?_, ?_, divRowAll_no_match, ?_, by decide⟩
  · intro c d hd
    rw [ceilDivCell, intCeilDiv_eq_spec c d hd]
  · intro fr e dcell hna
    rw [applyDivisorEntry]
    simp [divisorVal, hna]
  · intro fr e dcell hz
    rw [applyDivisorEntry]
    simp [divisorVal, hz]
  · intro cols r e d c n hd hm hc hlen hget
    rw [divRowAll_single cols r e d (by omega) hm]
    obtain ⟨hcin, hcnk⟩ := List.mem_filter.mp hc
    rw [getCell_mapNonKey_side c _ (by simpa using hcnk) cols r hcin hlen,
      hget, ceilDivCell, intCeilDiv_eq_spec n d hd]

/-- Witness for C6: divisor 2 on count 5 gives the integer ceiling 3. -/
theorem c6_divisor_correction_witness :
    ((0:Int) < 2) ∧
    getCell pivotTooth.cols
      (divRowAll [("Tooth", Cell.int 2)] pivotTooth.cols
        [Cell.int 3, Cell.str "zebra", Cell.str "adult", Cell.str "m",
         Cell.str "tooth", Cell.int 5]) "left" = Cell.int (ceilQuotSpec 5 2) :=
  ⟨by decide,
   c6_divisor_correction.2.2.2.2.1 pivotTooth.cols
     [Cell.int 3, Cell.str "zebra", Cell.str "adult", Cell.str "m",
      Cell.str "tooth", Cell.int 5] "Tooth" 2 "left" 5
     (by decide) (by decide) (by decide) (by decide) (by decide)⟩

theorem mapNonKey_length (f : Cell → Cell) :
    ∀ (cols : List String) (r : List Cell),
      (mapNonKey cols f r).length = r.length := by
  intro cols
  induction cols with
  | nil => intro r; rfl
  | cons c cs ih =>
    intro r
    cases r with
    | nil => rfl
    | cons v vs => simp [mapNonKey, ih vs]

theorem elemMatches_mapNonKey (cols : List String) (f : Cell → Cell)
    (r : List Cell) (e : String) :
    elemMatches cols (mapNonKey cols f r) e = elemMatches cols r e := by
  rw [elemMatches.eq_def, elemMatches.eq_def,
    getCell_mapNonKey_key _ _ (by simp [keyCols])]

/-- C7 counterexample: with the duplicated divisor entries ("x", 2),
("x", 2) and raw count 5 the pipeline reports MNI 2, the compounded
ceil(ceil(5/2)/2); "only the last row's divisor" would have given
ceil(5/2) = 3 (second conjunct). -/
theorem c7_counterexample :
    calculate_mni [("x", Cell.int 2), ("x", Cell.int 2)] pivotDup =
      Except.ok ⟨["TransectUID", "MNI"], [[Cell.int 1, Cell.int 2]]⟩ ∧
    ceilQuotSpec 5 2 = 3 := by
  constructor <;> decide

/-- C7 amended: duplicate divisor-table entries do not overwrite one
another — the loop is a sequential fold in source-row order, each later
entry correcting the already-corrected counts, so two matching positive
entries d1 then d2 turn an integer count n into
ceil(ceil(n / d1) / d2). -/
theorem c7_amended :
    (∀ (fr : Frame) (p : String × Cell) (tbl : List (String × Cell)),
      applyDivisors (p :: tbl) fr =
        applyDivisors tbl (applyDivisorEntry fr p)) ∧
    (∀ (cols : List String) (r : List Cell) (e : String) (d1 d2 : Int)
      (c : String) (n : Int), 0 < d1 → 0 < d2 →
      elemMatches cols r (lowerStr (trimStr e)) = true →
      c ∈ sideColsOf cols → r.length = cols.length →
      getCell cols r c = Cell.int n →
      getCell cols
        (divRowAll [(e, Cell.int d1), (e, Cell.int d2)] cols r) c =
        Cell.int (ceilQuotSpec (ceilQuotSpec n d1) d2)) := by
  constructor
  · intro fr p tbl
    rfl
  · intro cols r e d1 d2 c n hd1 hd2 hm hc hlen hget
    obtain ⟨hcin, hcnk⟩ := List.mem_filter.mp hc
    have hstep : divRowAll [(e, Cell.int d1), (e, Cell.int d2)] cols r =
        mapNonKey cols (ceilDivCell d2)
          (mapNonKey cols (ceilDivCell d1) r) := by
      have h1 : divRowAll [(e, Cell.int d1), (e, Cell.int d2)] cols r =
          divRowAll [(e, Cell.int d2)] cols
            (divEntryRow cols (e, Cell.int d1) r) := rfl
      have h2 : divEntryRow cols (e, Cell.int d1) r =
          mapNonKey cols (ceilDivCell d1) r := by
        rw [divEntryRow]
        simp only [divisorVal, toNumeric]
        rw [if_neg (show ¬ d1 = 0 from by omega)]
        simp [hm]
      rw [h1, h2, divRowAll_single]
      · omega
      · rw [elemMatches_mapNonKey]
        exact hm
    rw [hstep]
    rw [getCell_mapNonKey_side c _ (by simpa using hcnk) cols _ hcin
      (by rw [mapNonKey_length]; exact hlen)]
    rw [getCell_mapNonKey_side c _ (by simpa using hcnk) cols r hcin hlen]
    rw [hget, ceilDivCell, intCeilDiv_eq_spec n d1 hd1, ceilDivCell,
      intCeilDiv_eq_spec _ d2 hd2]

/-- Witness for C7 (amended): divisors 2 then 2 on count 5 compound to
ceil(ceil(5/2)/2) = 2. -/
theorem c7_amended_witness :
    ((0:Int) < 2) ∧
    getCell pivotDup.cols
      (divRowAll [("x", Cell.int 2), ("x", Cell.int 2)] pivotDup.cols
        [Cell.int 1, Cell.str "zebra", Cell.str "adult", Cell.str "m",
         Cell.str "x", Cell.int 5]) "left" =
      Cell.int (ceilQuotSpec (ceilQuotSpec 5 2) 2) :=
  ⟨by decide,
   c7_amended.2 pivotDup.cols
     [Cell.int 1, Cell.str "zebra", Cell.str "adult", Cell.str "m",
      Cell.str "x", Cell.int 5] "x" 2 2 "left" 5
     (by decide) (by decide) (by decide) (by decide) (by decide) (by decide)⟩

theorem countP_congr_fn {α : Type} (p q : α → Bool) (l : List α)
    (h : ∀ a ∈ l, p a = q a) : l.countP p = l.countP q := by
  induction l with
  | nil => rfl
  | cons a l ih =>
    rw [List.countP_cons, List.countP_cons, h a (by simp),
      ih (fun x hx => h x (by simp [hx]))]

/-- C8 counterexample: on seasons [2019, 2020, 2021] where 2020 appears
in the season column but all its values are null, both adjacent pairs
touch the empty season and both are skipped, so the output has zero
rows — not exactly one as the claim states. -/
theorem c8_counterexample :
    ¬ (compare_consecutive_seasons ttestZero seasonsGap (1 / 20)).length = 1 ∧
    compare_consecutive_seasons ttestZero seasonsGap (1 / 20) = [] := by
  constructor <;> decide

/-- C8 amended: an adjacent season pair produces an output row exactly
when both of its non-null value groups are non-empty — the output length
is the number of adjacent pairs of the sorted distinct non-null seasons
whose two groups are both non-empty — and in the 2019/2020/2021 scenario
with an empty 2020 both adjacent pairs are skipped, leaving zero output
rows. -/
theorem c8_amended :
    (∀ (ttest : List ℚ → List ℚ → ℚ × ℚ) (df : List (Cell × Cell))
      (alpha : ℚ),
      (compare_consecutive_seasons ttest df alpha).length =
        ((sortBy cellLe (((df.map Prod.fst).filter
            (fun s => !(s = Cell.na))).dedup)).zip
          (sortBy cellLe (((df.map Prod.fst).filter
            (fun s => !(s = Cell.na))).dedup)).tail).countP (fun p =>
          0 < (((df.filter (fun r => r.1 = p.1)).map
                Prod.snd).filterMap cellQ).length ∧
          0 < (((df.filter (fun r => r.1 = p.2)).map
                Prod.snd).filterMap cellQ).length)) ∧
    compare_consecutive_seasons ttestZero seasonsGap (1 / 20) = [] := by
  constructor
  · intro ttest df alpha
    simp only [compare_consecutive_seasons]
    rw [length_filterMap_eq_countP]
    refine countP_congr_fn _ _ _ ?_
    intro p _
    by_cases hcond :
        0 < (((df.filter (fun r => r.1 = p.1)).map
              Prod.snd).filterMap cellQ).length ∧
        0 < (((df.filter (fun r => r.1 = p.2)).map
              Prod.snd).filterMap cellQ).length
    · rw [List.filterMap_map, List.filterMap_map] at hcond
      simp [hcond.1, hcond.2]
    · rw [List.filterMap_map, List.filterMap_map] at hcond
      rcases not_and_or.mp hcond with h | h <;> simp [h]
  · decide

/-- C9: in pivoted shape every column other than the five key columns is
treated as a side-count column.  Conjunct 1 characterises the pivoted
path: the result is the aggregation of the corrected frame, whose
correction and `element_mni` maximum range over `sideColsOf df.cols`;
conjunct 2 records that `sideColsOf` is exactly the non-key columns.
The closed conjuncts show a spurious extra column (`Notes` = 7)
participating: it raises the MNI to 7 when present and unmatched, its
absence brings the result back to 1, it is forced to 1 on a
nonidentifiable-bone row, and it is ceiling-divided by a matching
element divisor. -/
theorem pivoted_path_eq (tbl : List (String × Cell)) (df : Frame)
    (hhasT : hasCol df "TransectUID" = true)
    (hside : hasCol df "Side" = false)
    (hkeys : ∀ c ∈ keyCols, hasCol df c = true)
    (htax : (colCells df "Taxon Label").contains Cell.na = false) :
    calculate_mni tbl df = Except.ok (aggregate (correctCounts tbl
      (teethNormalize (coerceTuid (dropnaOn (coerceTuid df) keyCols))))) := by
  have hnt : needsTaxon (coerceTuid df) = false := by
    have h1 : hasCol (coerceTuid df) "Taxon Label" = true := by
      have := hkeys "Taxon Label" (by simp [keyCols])
      simpa [hasCol, coerceTuid] using this
    have h2 : Cell.na ∉ colCells df "Taxon Label" := by
      intro hm
      simp [hm] at htax
    simp [needsTaxon, h1, colCells_coerce_taxon df, h2]
  have hrec : reconTaxon (coerceTuid df) = Except.ok (coerceTuid df) := by
    simp [reconTaxon, hnt]
  have hside2 : hasCol (coerceTuid df) "Side" = false := by
    simpa [hasCol, coerceTuid] using hside
  have hmiss : keyCols.filter (fun c => !(hasCol (coerceTuid df) c)) = [] := by
    refine List.filter_eq_nil_iff.mpr (fun c hc => ?_)
    have h2 := hkeys c hc
    simp only [hasCol, coerceTuid] at h2 ⊢
    simpa using h2
  simp [calculate_mni, hhasT, hrec, hside2, hmiss, sortBy, sharedTail]

theorem c9_extra_columns_are_counts :
    (∀ (tbl : List (String × Cell)) (df : Frame),
      hasCol df "TransectUID" = true →
      hasCol df "Side" = false →
      (∀ c ∈ keyCols, hasCol df c = true) →
      (colCells df "Taxon Label").contains Cell.na = false →
      calculate_mni tbl df = Except.ok (aggregate (correctCounts tbl
        (teethNormalize (coerceTuid (dropnaOn (coerceTuid df) keyCols)))))) ∧
    (∀ cols : List String,
      sideColsOf cols = cols.filter (fun c => !(keyCols.contains c))) ∧
    calculate_mni [] pivotExtraNotes =
      Except.ok ⟨["TransectUID", "MNI"], [[Cell.int 1, Cell.int 7]]⟩ ∧
    calculate_mni [] pivotNoNotes =
      Except.ok ⟨["TransectUID", "MNI"], [[Cell.int 1, Cell.int 1]]⟩ ∧
    calculate_mni [] pivotExtraNonident =
      Except.ok ⟨["TransectUID", "MNI"], [[Cell.int 1, Cell.int 1]]⟩ ∧
    calculate_mni [("femur", Cell.int 7)] pivotExtraNotes =
      Except.ok ⟨["TransectUID", "MNI"], [[Cell.int 1, Cell.int 1]]⟩ := by
  exact ⟨fun tbl df h1 h2 h3 h4 => pivoted_path_eq tbl df h1 h2 h3 h4,
    fun cols => rfl, by decide, by decide, by decide, by decide⟩

/-- Witness for C9 (conjunct 1) on a concrete pivoted table. -/
theorem c9_extra_columns_are_counts_witness :
    hasCol samplePivot "TransectUID" = true ∧
    calculate_mni [] samplePivot = Except.ok (aggregate (correctCounts []
      (teethNormalize (coerceTuid (dropnaOn (coerceTuid samplePivot)
        keyCols))))) :=
  ⟨by decide,
   c9_extra_columns_are_counts.1 [] samplePivot
     (by decide) (by decide) (by decide) (by decide)⟩

/-! ### The five-key-only pivoted input -/

theorem filterMap_id_all_none (l : List (Option Int))
    (h : ∀ x ∈ l, x = none) : l.filterMap id = [] := by
  induction l with
  | nil => rfl
  | cons a l ih =>
    rw [List.filterMap_cons, h a (by simp)]
    exact ih (fun x hx => h x (by simp [hx]))

/-- C10 counterexample: the claim says `calculate_mni` does not raise on
any pivoted input whose columns are exactly the five key columns; with a
null taxon-label cell (and no alternative columns, which such an input
cannot have) the call raises the reconstruction error. -/
theorem c10_counterexample :
    pivotBareNullTaxon.cols = keyCols ∧
    calculate_mni [] pivotBareNullTaxon =
      Except.error MniError.noTaxonAlternatives := by
  constructor <;> decide

/-- C10 amended: on a pivoted input whose columns are exactly the five
key columns **and whose taxon-label cells are non-null**, `calculate_mni`
does not raise; the count-correction block is skipped and the divisor
table is never consulted (the result is the same for any two tables);
there are no side-count columns, so `element_mni` is missing (`none`)
for every row; and every row of the returned table reports MNI = 0. -/
theorem c10_no_side_columns (tbl tbl2 : List (String × Cell)) (df : Frame)
    (hcols : df.cols = keyCols)
    (htax : (colCells df "Taxon Label").contains Cell.na = false) :
    (∃ out : Frame, calculate_mni tbl df = Except.ok out ∧
      out.cols = ["TransectUID", "MNI"] ∧
      ∀ r ∈ out.rows, r.getD 1 Cell.na = Cell.int 0) ∧
    calculate_mni tbl df = calculate_mni tbl2 df ∧
    sideColsOf df.cols = [] ∧
    (∀ r : List Cell, mniRowVal (teethNormalize (coerceTuid (dropnaOn
      (coerceTuid df) keyCols))) r = none) := by
  have hsc : sideColsOf df.cols = [] := by rw [hcols]; rfl
  have hQcols : (teethNormalize (coerceTuid (dropnaOn
      (coerceTuid df) keyCols))).cols = keyCols := by
    rw [show (teethNormalize (coerceTuid (dropnaOn
      (coerceTuid df) keyCols))).cols = df.cols from rfl, hcols]
  have hscQ : sideColsOf (teethNormalize (coerceTuid (dropnaOn
      (coerceTuid df) keyCols))).cols = [] := by rw [hQcols]; rfl
  have hmni : ∀ r : List Cell, mniRowVal (teethNormalize (coerceTuid
      (dropnaOn (coerceTuid df) keyCols))) r = none := by
    intro r
    rw [mniRowVal, hscQ]
    rfl
  have hcc : ∀ tb : List (String × Cell),
      correctCounts tb (teethNormalize (coerceTuid (dropnaOn
        (coerceTuid df) keyCols))) =
      teethNormalize (coerceTuid (dropnaOn (coerceTuid df) keyCols)) :=
    fun tb => by rw [correctCounts, if_pos hscQ]
  have hpath : ∀ tb : List (String × Cell), calculate_mni tb df =
      Except.ok (aggregate (teethNormalize (coerceTuid (dropnaOn
        (coerceTuid df) keyCols)))) := by
    intro tb
    rw [pivoted_path_eq tb df
      (by simp [hasCol, hcols, keyCols])
      (by simp [hasCol, hcols, keyCols])
      (fun c hc => by simp [hasCol, hcols]; simpa using hc)
      htax]
    rw [hcc]
  refine ⟨⟨aggregate (teethNormalize (coerceTuid (dropnaOn
      (coerceTuid df) keyCols))), hpath tbl, rfl, ?_⟩,
    (hpath tbl).trans (hpath tbl2).symm, hsc, hmni⟩
  intro r hr
  obtain ⟨t, _, hrt⟩ := List.mem_map.mp hr
  have hgm : ∀ k, groupMax (teethNormalize (coerceTuid (dropnaOn
      (coerceTuid df) keyCols))) k = none := by
    intro k
    rw [groupMax]
    rw [map_congr_fn _ (fun _ => (none : Option Int)) _ (fun r0 _ => hmni r0)]
    rw [maxOpt, filterMap_id_all_none]
    · rfl
    · intro x hx
      obtain ⟨r0, _, hxr⟩ := List.mem_map.mp hx
      exact hxr.symm
  have hsum : transectSum (teethNormalize (coerceTuid (dropnaOn
      (coerceTuid df) keyCols))) t = 0 := by
    rw [transectSum]
    refine List.sum_eq_zero ?_
    intro x hx
    obtain ⟨k, _, hkx⟩ := List.mem_map.mp hx
    rw [← hkx, hgm k]
    rfl
  rw [← hrt]
  simp [hsum]

/-- Witness for C10 (amended) at the concrete five-key-only table. -/
theorem c10_no_side_columns_witness :
    pivotBare.cols = keyCols ∧
    calculate_mni [("x", Cell.int 2)] pivotBare = calculate_mni [] pivotBare :=
  ⟨by decide,
   (c10_no_side_columns [("x", Cell.int 2)] [] pivotBare
     (by decide) (by decide)).2.1⟩
